import Mathlib

/-!
Shallow embedding of the MIR taint data-flow checker of the UntrustedValue
repository (`untrusted_value_taint_checker`): the dependency-graph data model
(`analysis/mir/data_flow.rs`), the graph-construction primitive
`add_data_dependency_edge`, the three-phase analysis `check_data_flow`
(`analysis/mir/data_flow_checker.rs`), and the taint-source prefix filtering
performed by `execute_build_plan` (`cargo.rs`).

Modelling conventions:
* `rustc` spans are opaque identifiers, embedded as `Nat`.  `IRSpan::new`
  merely resolves a span against the compiler's source map, so it is embedded
  as the identity on the span identifier.
* `rustc` types (`ty::Ty`) are embedded by the only observations the checker
  makes of them: their `TyKind` head together with `tcx.def_path_str` of the
  referenced definition, and (for `FnDef`) the generic arguments, where each
  argument is `some ty` when `arg.as_type()` succeeds and `none` otherwise.
* `config::Map` (a hash map keyed by graph-node value) is embedded as an
  association list where `insert` prepends and `get` returns the most recent
  binding, which is exactly the overwrite-on-insert semantics of the map.
* `petgraph`'s `Graph` stores nodes and edges in insertion-order arenas while
  the per-node adjacency lists are prepended to on `add_edge`; consequently
  `neighbors_directed`/`edges_directed` iterate outgoing edges in reverse
  insertion order, which the `outEdges` accessor reproduces.
* Every `unwrap`/`unreachable!` in `check_data_flow` is embedded as an
  `Option` failure (`none` = panic), so the embedded checker returns
  `Option (List TaintProblem)`.
* Loops are executed with explicit fuel chosen strictly larger than the
  number of iterations the loop can perform, so fuel exhaustion is
  unreachable; the BFS fuel bound is justified by `taintBfs`'s accounting
  lemmas below.
-/

/-- The observation `check_data_flow` makes of a generic argument's type:
either an `Adt` head with `tcx.def_path_str(base.did())`, or some other type
(kept distinct through an opaque identifier, since the checker only compares
such types for equality). -/
inductive TyObs where
  | adt (defPathStr : String)
  | nonAdt (id : Nat)
deriving DecidableEq

/-- The observations `check_data_flow` makes of a `rustc_middle::ty::Ty`:
`TyKind::Adt` carries `tcx.def_path_str(base.did())`, `TyKind::FnDef` carries
`tcx.def_path_str(base)` plus its generic arguments (`some t` when the
argument `as_type()` is a type, `none` for lifetime/const arguments); every
other kind is only compared for equality (opaque identifier). -/
inductive TyKind where
  | adt (defPathStr : String)
  | fnDef (defPathStr : String) (generics : List (Option TyObs))
  | other (id : Nat)
deriving DecidableEq

/-- `DependencyGraphNode` from `analysis/mir/data_flow.rs`.  `mir::Local` is a
per-body index, embedded as `Nat`; spans are opaque `Nat` identifiers. -/
inductive DependencyGraphNode where
  | local (dst : Nat) (ty : TyKind)
  | functionCall (function : TyKind) (span : Nat)
  | returnedToCaller
  | functionInput
  | assembly (spans : List Nat)
  | controlFlow
deriving DecidableEq

/-- `EdgeDataFlowType` from `analysis/mir/data_flow.rs`. -/
inductive EdgeDataFlowType where
  | move
  | used
deriving DecidableEq

/-- `EdgeInstance` from `analysis/mir/data_flow.rs`. -/
structure EdgeInstance where
  span : Nat
  data_flow_type : EdgeDataFlowType
deriving DecidableEq

/-- `GraphEdge` from `analysis/mir/data_flow.rs`. -/
structure GraphEdge where
  instances : List EdgeInstance
deriving DecidableEq

/-- `GraphEdge::is_move_only`: every instance on the edge is a `Move`. -/
def GraphEdge.is_move_only (e : GraphEdge) : Bool :=
  e.instances.all (fun x => x.data_flow_type = EdgeDataFlowType.move)

/-- One edge of the petgraph arena: endpoints (node indices) plus weight. -/
structure EdgeRef where
  src : Nat
  tgt : Nat
  weight : GraphEdge
deriving DecidableEq

/-- A `petgraph::graph::DiGraph<DependencyGraphNode, GraphEdge>`: nodes and
edges in arena (insertion) order. -/
structure DiGraph where
  nodes : List DependencyGraphNode
  edges : List EdgeRef
deriving DecidableEq

/-- `edges_directed(n, Outgoing)`: petgraph iterates the outgoing adjacency
list, which is prepended to on insertion, hence reverse arena order. -/
def outEdges (g : DiGraph) (n : Nat) : List EdgeRef :=
  (g.edges.filter (fun e => e.src = n)).reverse

/-- `neighbors_directed(n, Outgoing)`: one entry per outgoing edge. -/
def neighborsOut (g : DiGraph) (n : Nat) : List Nat :=
  (outEdges g n).map (fun e => e.tgt)

/-- `edges_connecting(a, b)`: the outgoing edges of `a` whose target is `b`,
in the adjacency-list iteration order. -/
def edgesConnecting (g : DiGraph) (a b : Nat) : List GraphEdge :=
  ((outEdges g a).filter (fun e => e.tgt = b)).map (fun e => e.weight)

/-- `TaintSource` from `analysis/taint_source.rs`. -/
structure TaintSource where
  functions : List String
  description : String
deriving DecidableEq

/-- `TaintSourceDefinition` from `analysis/taint_source.rs`. -/
structure TaintSourceDefinition where
  taint_module_name : String
  taint_module_description : String
  sources : List TaintSource
deriving DecidableEq

/-- The local `Marking` enum of `check_data_flow`.  The Rust variant
`TaintSource(&'tsrc TaintSource)` borrows a catalog entry; the borrow is
embedded as the entry's position in the `taint_sources` vector. -/
inductive Marking where
  | taintSource (entry : Nat)
  | tainted
  | taintSink
deriving DecidableEq

/-- The `markings` map of `check_data_flow` (`config::Map` keyed by graph-node
value). -/
abbrev MarkMap := List (DependencyGraphNode × Marking)

/-- `Map::insert`: the new binding shadows any previous binding of the key. -/
def markInsert (m : MarkMap) (k : DependencyGraphNode) (v : Marking) : MarkMap :=
  (k, v) :: m

/-- `Map::get`: the most recent binding of the key, if any. -/
def markGet : MarkMap → DependencyGraphNode → Option Marking
  | [], _ => none
  | (k, v) :: rest, x => if k = x then some v else markGet rest x

/-- The type-string test `base_type_str == "untrusted_value::UntrustedValue"`
applied to an `Adt` type, as in the `Local` arm of the classification scan. -/
def isUntrustedValueAdt : TyKind → Bool
  | .adt s => s = "untrusted_value::UntrustedValue"
  | _ => false

/-- The same type-string test applied to a generic-argument type. -/
def isUntrustedValueObs : TyObs → Bool
  | .adt s => s = "untrusted_value::UntrustedValue"
  | _ => false

/-- The `for taint_source in taint_sources` loop at the end of the
`FunctionCall` arm of the classification scan: every entry whose `functions`
list contains the callee's path string inserts a `TaintSource` marking
(overwriting the previous one — the loop has no `break`) and pushes the node
index onto `sources`.  Entries are paired with their position to embed the
borrowed reference. -/
def taintSourceScan (entries : List (Nat × TaintSource)) (name : String)
    (node : DependencyGraphNode) (idx : Nat) (m : MarkMap) (srcs : List Nat) :
    MarkMap × List Nat :=
  match entries with
  | [] => (m, srcs)
  | (k, t) :: rest =>
    if t.functions.contains name then
      taintSourceScan rest name node idx (markInsert m node (.taintSource k)) (srcs ++ [idx])
    else
      taintSourceScan rest name node idx m srcs

/-- The sink-classification `if`/`else if` chain of the `FunctionCall` arm:
`UntrustedValue::wrap`, `From::from` with first generic argument
`UntrustedValue`, `Into::into` with second generic argument `UntrustedValue`. -/
def sinkScan (node : DependencyGraphNode) (name : String)
    (generics : List (Option TyObs)) (m : MarkMap) : MarkMap :=
  if name = "untrusted_value::UntrustedValue::wrap" then
    markInsert m node .taintSink
  else if name = "std::convert::From::from" then
    match generics[0]? with
    | some (some t) => if isUntrustedValueObs t then markInsert m node .taintSink else m
    | _ => m
  else if name = "std::convert::Into::into" then
    match generics[1]? with
    | some (some t) => if isUntrustedValueObs t then markInsert m node .taintSink else m
    | _ => m
  else m

/-- Classification of one graph node (the body of the phase-1 `for index in
node_indices()` loop): `Local`s of the wrapper type become sinks;
`FunctionCall`s run the sink chain and then the taint-source loop. -/
def classifyNode (ts : List TaintSource) (node : DependencyGraphNode) (idx : Nat)
    (m : MarkMap) (srcs : List Nat) : MarkMap × List Nat :=
  match node with
  | .local _ ty =>
    if isUntrustedValueAdt ty then (markInsert m node .taintSink, srcs) else (m, srcs)
  | .functionCall fnTy _ =>
    match fnTy with
    | .fnDef name generics =>
      taintSourceScan ts.enum name node idx (sinkScan node name generics m) srcs
    | _ => (m, srcs)
  | _ => (m, srcs)

/-- The phase-1 scan over all node indices in arena order. -/
def scanNodes (ts : List TaintSource) : List DependencyGraphNode → Nat → MarkMap →
    List Nat → MarkMap × List Nat
  | [], _, m, srcs => (m, srcs)
  | n :: rest, i, m, srcs =>
    let p := classifyNode ts n i m srcs
    scanNodes ts rest (i + 1) p.1 p.2

/-- Phase 1 of `check_data_flow`: initial markings and the `sources` worklist. -/
def phase1 (g : DiGraph) (ts : List TaintSource) : MarkMap × List Nat :=
  scanNodes ts g.nodes 0 [] []

/-- The inner `for neighbour in neighbours` loop of phase 2: every neighbour
whose node value has no marking yet is marked `Tainted` and appended to the
queue (returned as the second component, in iteration order).  Out-of-range
indices cannot occur in a petgraph graph and are skipped. -/
def propagateNeighbors (g : DiGraph) (m : MarkMap) : List Nat → MarkMap × List Nat
  | [] => (m, [])
  | nb :: rest =>
    match g.nodes[nb]? with
    | none => propagateNeighbors g m rest
    | some nbNode =>
      if (markGet m nbNode).isNone then
        let r := propagateNeighbors g (markInsert m nbNode .tainted) rest
        (r.1, nb :: r.2)
      else
        propagateNeighbors g m rest

/-- Phase 2 of `check_data_flow`: breadth-first saturation over the
`VecDeque` seeded with `sources`.  The fuel counts queue pops; it is chosen
(at the call site) strictly larger than the maximum possible number of pops,
so the `0` case is unreachable. -/
def taintBfs (g : DiGraph) : Nat → MarkMap → List Nat → MarkMap
  | 0, m, _ => m
  | fuel + 1, m, queue =>
    match queue with
    | [] => m
    | n :: rest =>
      let r := propagateNeighbors g m (neighborsOut g n)
      taintBfs g fuel r.1 (rest ++ r.2)

/-- The number of graph nodes currently unmarked; every queue push of
`propagateNeighbors` strictly decreases it. -/
def unmarkedCount (g : DiGraph) (m : MarkMap) : Nat :=
  g.nodes.countP (fun n => (markGet m n).isNone)

/-- The saturated markings: phase 1 followed by phase 2.  Total pops of the
BFS are at most `sources.length` (the seed) plus one per marking insertion,
and at most `g.nodes.length` insertions can happen, so the fuel suffices. -/
def saturatedMarkings (g : DiGraph) (ts : List TaintSource) : MarkMap :=
  taintBfs g ((phase1 g ts).2.length + g.nodes.length + 1) (phase1 g ts).1 (phase1 g ts).2

/-- `TaintUsageType` from `analysis/taint_problem.rs` (`IRSpan` ↦ span id). -/
inductive TaintUsageType where
  | returnedToCaller
  | functionCall (loc : Nat)
  | assembly
  | controlFlow
  | copied
deriving DecidableEq

/-- `TaintProblemType` from `analysis/taint_problem.rs`. -/
inductive TaintProblemType where
  | dataDependencyLoop (statement_chain : List Nat) (loop_closure : Nat)
  | duplicated (statement_chain : List Nat) (targets : List Nat)
  | used (statement_chain : List Nat) (used_in : Nat) (usage_type : TaintUsageType)
deriving DecidableEq

/-- `TaintProblem` from `analysis/taint_problem.rs`; the borrowed
`&TaintSource` is embedded as the entry's position in the catalog vector. -/
structure TaintProblem where
  taint_source : Nat
  source_func_sig : String
  source_span : Nat
  problem_type : TaintProblemType
deriving DecidableEq

/-- `edge.weight().instances.iter().nth(0).unwrap().span`, with the `unwrap`
embedded as an `Option` failure. -/
def firstSpan? (e : GraphEdge) : Option Nat :=
  (e.instances.head?).map (fun i => i.span)

/-- `Option`-monadic map used to sequence the `unwrap`-carrying iterator
chains of `check_data_flow` (any `unwrap` failure aborts, like a panic). -/
def optionMapM (f : α → Option β) : List α → Option (List β)
  | [] => some []
  | x :: rest =>
    match f x, optionMapM f rest with
    | some y, some ys => some (y :: ys)
    | _, _ => none

/-- The `while let Some(node) = queue.pop_front()` walk of phase 3 for one
source.  Arguments mirror the Rust local state: the problem header fields
(`tsEntry`, `sig`, `tsSpan`), the queue, `visited` and `edges_traversed`.
`none` embeds a panic (`unwrap` failure or `unreachable!`); the fuel counts
pops and is unreachable at `0` because `visited` grows by one distinct node
index per pop that continues.  Reported problems are accumulated in order;
the branches without `continue 'source_test'` (FunctionCall/Return/Assembly/
ControlFlow) keep looping on the remaining queue exactly as the Rust does. -/
def walkLoop (g : DiGraph) (m : MarkMap) (srcIdx tsEntry : Nat) (sig : String)
    (tsSpan : Nat) : Nat → List Nat → List Nat → List GraphEdge →
    Option (List TaintProblem)
  | 0, _, _, _ => none
  | _ + 1, [], _, _ => some []
  | fuel + 1, n :: rest, visited, traversed =>
    let lastNode := (visited.getLast?).getD srcIdx
    match (edgesConnecting g lastNode n)[0]? with
    | none => none
    | some edge =>
      let traversed := traversed ++ [edge]
      if visited.contains n then
        match optionMapM firstSpan? (traversed.take (traversed.length - 1)),
            firstSpan? edge with
        | some chain, some closure =>
          some [⟨tsEntry, sig, tsSpan, .dataDependencyLoop chain closure⟩]
        | _, _ => none
      else
        let visited := visited ++ [n]
        let neighbours := neighborsOut g n
        if neighbours.length > 1 then
          match optionMapM (fun nb => (edgesConnecting g n nb)[0]?) neighbours with
          | none => none
          | some targetEdges =>
            match optionMapM firstSpan? traversed, optionMapM firstSpan? targetEdges with
            | some chain, some targets =>
              some [⟨tsEntry, sig, tsSpan, .duplicated chain targets⟩]
            | _, _ => none
        else
          match neighbours with
          | [nb] =>
            match g.nodes[nb]?, (edgesConnecting g n nb)[0]? with
            | some nbNode, some edge2 =>
              match nbNode with
              | .local _ _ =>
                match markGet m nbNode with
                | some .taintSink =>
                  walkLoop g m srcIdx tsEntry sig tsSpan fuel rest visited traversed
                | some (.taintSource _) | some .tainted =>
                  if edge2.is_move_only then
                    walkLoop g m srcIdx tsEntry sig tsSpan fuel (rest ++ [nb]) visited traversed
                  else
                    match optionMapM firstSpan? traversed, firstSpan? edge2 with
                    | some chain, some ui =>
                      some [⟨tsEntry, sig, tsSpan, .used chain ui .copied⟩]
                    | _, _ => none
                | none => none
              | .functionCall _ callSpan =>
                match markGet m nbNode with
                | some .taintSink =>
                  walkLoop g m srcIdx tsEntry sig tsSpan fuel rest visited traversed
                | some (.taintSource _) | some .tainted =>
                  match optionMapM firstSpan? traversed, firstSpan? edge2 with
                  | some chain, some ui =>
                    (walkLoop g m srcIdx tsEntry sig tsSpan fuel rest visited traversed).map
                      (fun ps => ⟨tsEntry, sig, tsSpan, .used chain ui (.functionCall callSpan)⟩ :: ps)
                  | _, _ => none
                | none => none
              | .returnedToCaller =>
                match optionMapM firstSpan? traversed, firstSpan? edge2 with
                | some chain, some ui =>
                  (walkLoop g m srcIdx tsEntry sig tsSpan fuel rest visited traversed).map
                    (fun ps => ⟨tsEntry, sig, tsSpan, .used chain ui .returnedToCaller⟩ :: ps)
                | _, _ => none
              | .assembly _ =>
                match optionMapM firstSpan? traversed, firstSpan? edge2 with
                | some chain, some ui =>
                  (walkLoop g m srcIdx tsEntry sig tsSpan fuel rest visited traversed).map
                    (fun ps => ⟨tsEntry, sig, tsSpan, .used chain ui .assembly⟩ :: ps)
                | _, _ => none
              | .controlFlow =>
                match optionMapM firstSpan? traversed, firstSpan? edge2 with
                | some chain, some ui =>
                  (walkLoop g m srcIdx tsEntry sig tsSpan fuel rest visited traversed).map
                    (fun ps => ⟨tsEntry, sig, tsSpan, .used chain ui .controlFlow⟩ :: ps)
                | _, _ => none
              | .functionInput => none
            | _, _ => none
          | _ =>
            walkLoop g m srcIdx tsEntry sig tsSpan fuel rest visited traversed

/-- Phase 3 for one entry of the `sources` worklist: header extraction (with
its `unwrap`/`unreachable!`s), then the special handling of the source's own
outgoing edges, then `walkLoop`.  Returns the problems pushed for this
source, or `none` for a panic. -/
def walkFromSource (g : DiGraph) (m : MarkMap) (srcIdx : Nat) :
    Option (List TaintProblem) :=
  match g.nodes[srcIdx]? with
  | none => none
  | some srcNode =>
    match markGet m srcNode with
    | some (.taintSource tsEntry) =>
      match srcNode with
      | .functionCall (.fnDef name _) _ =>
        match outEdges g srcIdx with
        | [] => some []
        | [e] =>
          match firstSpan? e.weight with
          | none => none
          | some sp0 =>
            if e.weight.is_move_only then
              walkLoop g m srcIdx tsEntry name sp0
                (g.nodes.length + g.edges.length + 2) [e.tgt] [srcIdx] []
            else
              some [⟨tsEntry, name, sp0, .used [] sp0 .copied⟩]
        | e0 :: e1 :: rest =>
          match firstSpan? e0.weight,
              optionMapM (fun e => firstSpan? e.weight) (e0 :: e1 :: rest) with
          | some sp0, some targets =>
            some [⟨tsEntry, name, sp0, .duplicated [] targets⟩]
          | _, _ => none
      | _ => none
    | _ => none

/-- `check_data_flow` (`analysis/mir/data_flow_checker.rs`): phase-1
classification, phase-2 saturation, then one phase-3 walk per `sources`
entry, problems concatenated in order.  The graphviz rendering is omitted:
it does not contribute to `taint_problems`.  `none` embeds a panic. -/
def check_data_flow (g : DiGraph) (taint_sources : List TaintSource) :
    Option (List TaintProblem) :=
  (optionMapM (walkFromSource g (saturatedMarkings g taint_sources)) (phase1 g taint_sources).2).map
    List.flatten

/-- The node-dedup and graph fields of `DataFlowTaintTracker`
(`analysis/mir/data_flow.rs`); the `tcx`, body and sanitized-locals fields
play no role in `add_data_dependency_edge`. -/
structure DataFlowTaintTracker where
  data_dependency_graph : DiGraph
  data_dependency_graph_index : List (DependencyGraphNode × Nat)

/-- The tracker produced by `DataFlowTaintTracker::new`. -/
def emptyTracker : DataFlowTaintTracker := ⟨⟨[], []⟩, []⟩

/-- Index-map lookup (`config::Map::get`), most recent binding first. -/
def idxGet : List (DependencyGraphNode × Nat) → DependencyGraphNode → Option Nat
  | [], _ => none
  | (k, v) :: rest, x => if k = x then some v else idxGet rest x

/-- The get-or-insert idiom of `add_data_dependency_edge`: reuse the mapped
index if present, otherwise `add_node` (appending to the arena, so the new
index is the old node count) and record it in the index map. -/
def getNodeOrInsert (s : DataFlowTaintTracker) (n : DependencyGraphNode) :
    DataFlowTaintTracker × Nat :=
  match idxGet s.data_dependency_graph_index n with
  | some i => (s, i)
  | none =>
    let i := s.data_dependency_graph.nodes.length
    (⟨⟨s.data_dependency_graph.nodes ++ [n], s.data_dependency_graph.edges⟩,
      (n, i) :: s.data_dependency_graph_index⟩, i)

/-- `find_edge(from, to)` followed by pushing an instance onto the found
edge: petgraph's `find_edge` walks the prepend-ordered adjacency list, i.e.
it finds the most recently added (last-in-arena) matching edge, so the
update is applied to the last match.  `none` when no edge connects the
pair. -/
def updateLastEdge (fi ti : Nat) (inst : EdgeInstance) :
    List EdgeRef → Option (List EdgeRef)
  | [] => none
  | e :: rest =>
    match updateLastEdge fi ti inst rest with
    | some rest2 => some (e :: rest2)
    | none =>
      if e.src = fi ∧ e.tgt = ti then
        some (⟨e.src, e.tgt, ⟨e.weight.instances ++ [inst]⟩⟩ :: rest)
      else
        none

/-- `DataFlowTaintTracker::add_data_dependency_edge`. -/
def add_data_dependency_edge (s : DataFlowTaintTracker)
    (fromNode toNode : DependencyGraphNode) (span : Nat)
    (flow_type : EdgeDataFlowType) : DataFlowTaintTracker :=
  let p1 := getNodeOrInsert s fromNode
  let p2 := getNodeOrInsert p1.1 toNode
  let s2 := p2.1
  let new_edge : EdgeInstance := ⟨span, flow_type⟩
  match updateLastEdge p1.2 p2.2 new_edge s2.data_dependency_graph.edges with
  | some edges2 =>
    ⟨⟨s2.data_dependency_graph.nodes, edges2⟩, s2.data_dependency_graph_index⟩
  | none =>
    ⟨⟨s2.data_dependency_graph.nodes,
      s2.data_dependency_graph.edges ++ [⟨p1.2, p2.2, ⟨[new_edge]⟩⟩]⟩,
      s2.data_dependency_graph_index⟩

/-- The arguments of one `add_data_dependency_edge` call. -/
structure EdgeCall where
  fromNode : DependencyGraphNode
  toNode : DependencyGraphNode
  span : Nat
  flow_type : EdgeDataFlowType

/-- A sequence of `add_data_dependency_edge` calls applied in order. -/
def runEdgeCalls (calls : List EdgeCall) : DataFlowTaintTracker :=
  calls.foldl (fun s c => add_data_dependency_edge s c.fromNode c.toNode c.span c.flow_type)
    emptyTracker

/-- The multigraph invariant of the dependency graph: at most one edge per
ordered pair of node indices, and every edge carries at least one instance. -/
def EdgeInv (g : DiGraph) : Prop :=
  (∀ i j, ((g.edges.filter (fun e => e.src = i ∧ e.tgt = j)).length ≤ 1)) ∧
  (∀ e ∈ g.edges, e.weight.instances ≠ [])

/-- `str::starts_with`, embedded on the string's character sequence
(`String.startsWith` itself does not reduce in the kernel). -/
def strStartsWith (s pfx : String) : Bool := pfx.data.isPrefixOf s.data

/-- `itertools::unique`: keep the first occurrence of each element. -/
def uniqueFirstAux (seen : List TaintSource) : List TaintSource → List TaintSource
  | [] => []
  | x :: rest =>
    if seen.contains x then uniqueFirstAux seen rest
    else x :: uniqueFirstAux (x :: seen) rest

/-- The `actual_used_taint_sources` computation of `execute_build_plan`
(`cargo.rs`): with no CLI name filters, all catalog entries of all modules;
otherwise, for each filter string in order, the catalog entries with at
least one function name starting with that string, de-duplicated per filter
with `unique()`. -/
def actual_used_taint_sources (taint_sources : List TaintSourceDefinition)
    (args_taint_sources : List String) : List TaintSource :=
  if args_taint_sources.isEmpty then
    (taint_sources.map (fun m => m.sources)).flatten
  else
    (args_taint_sources.map (fun pfx =>
      uniqueFirstAux []
        (((taint_sources.map (fun m => m.sources)).flatten).filter
          (fun s => s.functions.any (fun f => strStartsWith f pfx))))).flatten

/-- The positions of the catalog entries whose `functions` list contains
`name` — the entries that make the taint-source loop fire. -/
def matchCount : List (Nat × TaintSource) → String → Nat
  | [], _ => 0
  | (_, t) :: rest, name =>
    (if t.functions.contains name then 1 else 0) + matchCount rest name

/-- The position of the last catalog entry whose `functions` list contains
`name` (the entry whose marking survives, since each match overwrites). -/
def lastMatch? : List (Nat × TaintSource) → String → Option Nat
  | [], _ => none
  | (k, t) :: rest, name =>
    match lastMatch? rest name with
    | some k2 => some k2
    | none => if t.functions.contains name then some k else none

/-- The marking the sink chain would insert for a callee, if any. -/
def sinkMark (name : String) (generics : List (Option TyObs)) : Option Marking :=
  if name = "untrusted_value::UntrustedValue::wrap" then some .taintSink
  else if name = "std::convert::From::from" then
    match generics[0]? with
    | some (some t) => if isUntrustedValueObs t then some .taintSink else none
    | _ => none
  else if name = "std::convert::Into::into" then
    match generics[1]? with
    | some (some t) => if isUntrustedValueObs t then some .taintSink else none
    | _ => none
  else none

/-- The final phase-1 marking a node value receives when it is processed:
taint-source matches overwrite the sink chain, so the last match wins. -/
def markOf (ts : List TaintSource) : DependencyGraphNode → Option Marking
  | .local _ ty => if isUntrustedValueAdt ty then some .taintSink else none
  | .functionCall (.fnDef name generics) _ =>
    match lastMatch? ts.enum name with
    | some k => some (.taintSource k)
    | none => sinkMark name generics
  | _ => none

/-- How many times one node pushes its index onto the `sources` worklist. -/
def nodeMatchCount (ts : List TaintSource) : DependencyGraphNode → Nat
  | .functionCall (.fnDef name _) _ => matchCount ts.enum name
  | _ => 0

/-- A catalog entry listing function `f` (first occurrence). -/
def entryA : TaintSource := ⟨["f"], "reads untrusted data"⟩

/-- A second catalog entry also listing function `f`. -/
def entryB : TaintSource := ⟨["f"], "reads untrusted data too"⟩

/-- A call node whose callee path string is `f`. -/
def callNodeF : DependencyGraphNode := .functionCall (.fnDef "f" []) 0

/-- A plain (non-wrapper-typed) local. -/
def localA : DependencyGraphNode := .local 1 (.other 0)

/-- Another plain local. -/
def localB : DependencyGraphNode := .local 2 (.other 0)

/-- A local of the wrapper type `untrusted_value::UntrustedValue`. -/
def sinkLocal : DependencyGraphNode := .local 1 (.adt "untrusted_value::UntrustedValue")

/-- A graph holding only the call node for `f`. -/
def gDoubleMatch : DiGraph := ⟨[callNodeF], []⟩

/-- The call node for `f` with two outgoing move edges (fan-out). -/
def gFanOut : DiGraph :=
  ⟨[callNodeF, localA, localB],
   [⟨0, 1, ⟨[⟨10, .move⟩]⟩⟩, ⟨0, 2, ⟨[⟨20, .move⟩]⟩⟩]⟩

/-- Call for `f` → wrapper-typed local (move) → `ReturnedToCaller` (move). -/
def gSinkReturn : DiGraph :=
  ⟨[callNodeF, sinkLocal, .returnedToCaller],
   [⟨0, 1, ⟨[⟨10, .move⟩]⟩⟩, ⟨1, 2, ⟨[⟨20, .move⟩]⟩⟩]⟩

/-- Call for `f` → local a (move) → local b (move) → local a again (cycle). -/
def gLoop : DiGraph :=
  ⟨[callNodeF, localA, localB],
   [⟨0, 1, ⟨[⟨10, .move⟩]⟩⟩, ⟨1, 2, ⟨[⟨20, .move⟩]⟩⟩, ⟨2, 1, ⟨[⟨30, .move⟩]⟩⟩]⟩

/-- Call for `f` → local a over a single non-move (`Used`) instance. -/
def gCopyEdge : DiGraph := ⟨[callNodeF, localA], [⟨0, 1, ⟨[⟨10, .used⟩]⟩⟩]⟩

/-- Discriminator for `Duplicated` problems. -/
def TaintProblemType.isDuplicated : TaintProblemType → Bool
  | .duplicated _ _ => true
  | _ => false

/-- Discriminator for `Used` problems. -/
def TaintProblemType.isUsed : TaintProblemType → Bool
  | .used _ _ _ => true
  | _ => false

/-- Discriminator for `DataDependencyLoop` problems. -/
def TaintProblemType.isLoop : TaintProblemType → Bool
  | .dataDependencyLoop _ _ => true
  | _ => false

/-- Call for `f` → wrapper-typed local (move), the sink having no successors. -/
def gSinkStop : DiGraph := ⟨[callNodeF, sinkLocal], [⟨0, 1, ⟨[⟨10, .move⟩]⟩⟩]⟩

/-- The scenario-C graph: a call node, local `a`, local `b`, with single
move edges source→a→b→a carrying spans `s1`, `s2`, `s3`. -/
def loopGraph (name : String) (generics : List (Option TyObs)) (sp da db : Nat)
    (tya tyb : TyKind) (s1 s2 s3 : Nat) : DiGraph :=
  ⟨[.functionCall (.fnDef name generics) sp, .local da tya, .local db tyb],
   [⟨0, 1, ⟨[⟨s1, .move⟩]⟩⟩, ⟨1, 2, ⟨[⟨s2, .move⟩]⟩⟩, ⟨2, 1, ⟨[⟨s3, .move⟩]⟩⟩]⟩

/-- A sample catalog module for evaluating the prefix filter. -/
def sampleModule : TaintSourceDefinition :=
  ⟨"env", "environment access",
   [⟨["std::env::var"], "environment variable"⟩, ⟨["std::fs::read"], "file read"⟩]⟩

theorem markGet_markInsert (m : MarkMap) (k : DependencyGraphNode) (mk : Marking)
    (v : DependencyGraphNode) :
    markGet (markInsert m k mk) v = if k = v then some mk else markGet m v := rfl

theorem taintSourceScan_markGet (entries : List (Nat × TaintSource)) (name : String)
    (node : DependencyGraphNode) (idx : Nat) (m : MarkMap) (srcs : List Nat)
    (v : DependencyGraphNode) :
    markGet (taintSourceScan entries name node idx m srcs).1 v =
      match lastMatch? entries name with
      | some k => if node = v then some (.taintSource k) else markGet m v
      | none => markGet m v := by
  induction entries generalizing m srcs with
  | nil => rfl
  | cons e rest ih =>
    obtain ⟨k, t⟩ := e
    cases hc : t.functions.contains name with
    | true =>
      simp only [taintSourceScan, hc, if_true, lastMatch?]
      rw [ih]
      cases hr : lastMatch? rest name with
      | some k2 =>
        by_cases hv : node = v <;> simp [hv, markGet_markInsert]
      | none => simp [hc, markGet_markInsert]
    | false =>
      simp only [taintSourceScan, hc, Bool.false_eq_true, if_false, lastMatch?]
      rw [ih]
      cases hr : lastMatch? rest name with
      | some k2 => simp
      | none => simp [hc]

theorem taintSourceScan_srcs_count (entries : List (Nat × TaintSource)) (name : String)
    (node : DependencyGraphNode) (idx : Nat) (m : MarkMap) (srcs : List Nat) (x : Nat) :
    ((taintSourceScan entries name node idx m srcs).2).count x =
      srcs.count x + (if x = idx then matchCount entries name else 0) := by
  induction entries generalizing m srcs with
  | nil => simp [taintSourceScan, matchCount]
  | cons e rest ih =>
    obtain ⟨k, t⟩ := e
    cases hc : t.functions.contains name with
    | true =>
      simp only [taintSourceScan, hc, if_true, matchCount]
      rw [ih]
      by_cases hx : x = idx
      · subst hx
        simp [List.count_append]
        omega
      · simp [List.count_append, hx, List.count_singleton']
    | false =>
      simp only [taintSourceScan, hc, Bool.false_eq_true, if_false, matchCount]
      rw [ih]
      simp

theorem taintSourceScan_srcs_length (entries : List (Nat × TaintSource)) (name : String)
    (node : DependencyGraphNode) (idx : Nat) (m : MarkMap) (srcs : List Nat) :
    ((taintSourceScan entries name node idx m srcs).2).length =
      srcs.length + matchCount entries name := by
  induction entries generalizing m srcs with
  | nil => simp [taintSourceScan, matchCount]
  | cons e rest ih =>
    obtain ⟨k, t⟩ := e
    cases hc : t.functions.contains name with
    | true =>
      simp only [taintSourceScan, hc, if_true, matchCount]
      rw [ih]
      simp
      omega
    | false =>
      simp only [taintSourceScan, hc, Bool.false_eq_true, if_false, matchCount]
      rw [ih]
      simp

theorem sinkScan_markGet (node : DependencyGraphNode) (name : String)
    (generics : List (Option TyObs)) (m : MarkMap) (v : DependencyGraphNode) :
    markGet (sinkScan node name generics m) v =
      match sinkMark name generics with
      | some mk => if node = v then some mk else markGet m v
      | none => markGet m v := by
  unfold sinkScan sinkMark
  split
  · simp [markGet_markInsert]
  · split
    · split
      · split
        · simp [markGet_markInsert]
        · simp
      · simp
    · split
      · split
        · split
          · simp [markGet_markInsert]
          · simp
        · simp
      · simp

theorem classifyNode_markGet (ts : List TaintSource) (nd : DependencyGraphNode)
    (i : Nat) (m : MarkMap) (srcs : List Nat) (v : DependencyGraphNode) :
    markGet (classifyNode ts nd i m srcs).1 v =
      match markOf ts nd with
      | some mk => if nd = v then some mk else markGet m v
      | none => markGet m v := by
  cases nd with
  | «local» dst ty =>
    simp only [classifyNode, markOf]
    cases hu : isUntrustedValueAdt ty <;> simp [hu, markGet_markInsert]
  | functionCall fnTy sp =>
    cases fnTy with
    | adt s => simp [classifyNode, markOf]
    | other id => simp [classifyNode, markOf]
    | fnDef name generics =>
      simp only [classifyNode, markOf]
      rw [taintSourceScan_markGet]
      cases hl : lastMatch? ts.enum name with
      | some k =>
        by_cases hv : DependencyGraphNode.functionCall (.fnDef name generics) sp = v
        · simp [hv]
        · rw [sinkScan_markGet]
          cases sinkMark name generics <;> simp [hv]
      | none =>
        rw [sinkScan_markGet]
  | returnedToCaller => simp [classifyNode, markOf]
  | functionInput => simp [classifyNode, markOf]
  | assembly spans => simp [classifyNode, markOf]
  | controlFlow => simp [classifyNode, markOf]

theorem classifyNode_srcs_count (ts : List TaintSource) (nd : DependencyGraphNode)
    (i : Nat) (m : MarkMap) (srcs : List Nat) (x : Nat) :
    ((classifyNode ts nd i m srcs).2).count x =
      srcs.count x + (if x = i then nodeMatchCount ts nd else 0) := by
  cases nd with
  | «local» dst ty =>
    simp only [classifyNode, nodeMatchCount]
    cases hu : isUntrustedValueAdt ty <;> simp [hu]
  | functionCall fnTy sp =>
    cases fnTy with
    | adt s => simp [classifyNode, nodeMatchCount]
    | other id => simp [classifyNode, nodeMatchCount]
    | fnDef name generics =>
      simp only [classifyNode, nodeMatchCount]
      rw [taintSourceScan_srcs_count]
  | returnedToCaller => simp [classifyNode, nodeMatchCount]
  | functionInput => simp [classifyNode, nodeMatchCount]
  | assembly spans => simp [classifyNode, nodeMatchCount]
  | controlFlow => simp [classifyNode, nodeMatchCount]

theorem classifyNode_srcs_length (ts : List TaintSource) (nd : DependencyGraphNode)
    (i : Nat) (m : MarkMap) (srcs : List Nat) :
    ((classifyNode ts nd i m srcs).2).length = srcs.length + nodeMatchCount ts nd := by
  cases nd with
  | «local» dst ty =>
    simp only [classifyNode, nodeMatchCount]
    cases hu : isUntrustedValueAdt ty <;> simp [hu]
  | functionCall fnTy sp =>
    cases fnTy with
    | adt s => simp [classifyNode, nodeMatchCount]
    | other id => simp [classifyNode, nodeMatchCount]
    | fnDef name generics =>
      simp only [classifyNode, nodeMatchCount]
      rw [taintSourceScan_srcs_length]
  | returnedToCaller => simp [classifyNode, nodeMatchCount]
  | functionInput => simp [classifyNode, nodeMatchCount]
  | assembly spans => simp [classifyNode, nodeMatchCount]
  | controlFlow => simp [classifyNode, nodeMatchCount]

theorem scanNodes_markGet (ts : List TaintSource) (nodes : List DependencyGraphNode)
    (i0 : Nat) (m : MarkMap) (srcs : List Nat) (v : DependencyGraphNode) :
    markGet (scanNodes ts nodes i0 m srcs).1 v =
      match markOf ts v with
      | some mk => if v ∈ nodes then some mk else markGet m v
      | none => markGet m v := by
  induction nodes generalizing i0 m srcs with
  | nil => cases markOf ts v <;> simp [scanNodes]
  | cons nd rest ih =>
    simp only [scanNodes]
    rw [ih, classifyNode_markGet]
    cases hm : markOf ts v with
    | some mk =>
      by_cases hv : v ∈ rest
      · simp [hv]
      · by_cases hnd : nd = v
        · subst hnd
          rw [hm]
          simp [hv]
        · cases h2 : markOf ts nd with
          | some mk2 => simp [hv, hnd, Ne.symm hnd]
          | none => simp [hv, Ne.symm hnd]
    | none =>
      by_cases hnd : nd = v
      · subst hnd
        rw [hm]
      · cases h2 : markOf ts nd with
        | some mk2 => simp [hnd]
        | none => simp

theorem scanNodes_srcs_count_lt (ts : List TaintSource) (nodes : List DependencyGraphNode)
    (i0 : Nat) (m : MarkMap) (srcs : List Nat) (x : Nat) (hx : x < i0) :
    ((scanNodes ts nodes i0 m srcs).2).count x = srcs.count x := by
  induction nodes generalizing i0 m srcs with
  | nil => rfl
  | cons nd rest ih =>
    simp only [scanNodes]
    rw [ih _ _ _ (by omega), classifyNode_srcs_count]
    simp [show ¬ x = i0 by omega]

theorem scanNodes_srcs_count (ts : List TaintSource) (nodes : List DependencyGraphNode)
    (i0 : Nat) (m : MarkMap) (srcs : List Nat) (j : Nat) (nd : DependencyGraphNode)
    (hj : nodes[j]? = some nd) :
    ((scanNodes ts nodes i0 m srcs).2).count (i0 + j) =
      srcs.count (i0 + j) + nodeMatchCount ts nd := by
  induction nodes generalizing i0 m srcs j with
  | nil => simp at hj
  | cons h rest ih =>
    cases j with
    | zero =>
      rw [List.getElem?_cons_zero] at hj
      injection hj with hj
      subst hj
      simp only [scanNodes]
      rw [scanNodes_srcs_count_lt _ _ _ _ _ _ (by omega), classifyNode_srcs_count]
      simp
    | succ j2 =>
      rw [List.getElem?_cons_succ] at hj
      simp only [scanNodes]
      have h2 := ih (i0 + 1) (classifyNode ts h i0 m srcs).1 (classifyNode ts h i0 m srcs).2 j2 hj
      rw [show i0 + (j2 + 1) = i0 + 1 + j2 by omega]
      rw [h2, classifyNode_srcs_count]
      simp [show ¬ i0 + 1 + j2 = i0 by omega]

theorem scanNodes_srcs_length (ts : List TaintSource) (nodes : List DependencyGraphNode)
    (i0 : Nat) (m : MarkMap) (srcs : List Nat) :
    ((scanNodes ts nodes i0 m srcs).2).length =
      srcs.length + (nodes.map (nodeMatchCount ts)).sum := by
  induction nodes generalizing i0 m srcs with
  | nil => simp [scanNodes]
  | cons nd rest ih =>
    simp only [scanNodes]
    rw [ih, classifyNode_srcs_length]
    simp
    omega

theorem phase1_markGet (g : DiGraph) (ts : List TaintSource) (v : DependencyGraphNode) :
    markGet (phase1 g ts).1 v =
      match markOf ts v with
      | some mk => if v ∈ g.nodes then some mk else none
      | none => none := by
  unfold phase1
  rw [scanNodes_markGet]
  cases markOf ts v <;> simp [markGet]

theorem phase1_srcs_count (g : DiGraph) (ts : List TaintSource) (j : Nat)
    (nd : DependencyGraphNode) (hj : g.nodes[j]? = some nd) :
    ((phase1 g ts).2).count j = nodeMatchCount ts nd := by
  unfold phase1
  have h := scanNodes_srcs_count ts g.nodes 0 [] [] j nd hj
  simpa using h

theorem phase1_srcs_length (g : DiGraph) (ts : List TaintSource) :
    ((phase1 g ts).2).length = (g.nodes.map (nodeMatchCount ts)).sum := by
  unfold phase1
  rw [scanNodes_srcs_length]
  simp

theorem mem_of_getElemOpt {α : Type} {l : List α} {i : Nat} {x : α}
    (h : l[i]? = some x) : x ∈ l := by
  obtain ⟨hi, rfl⟩ := List.getElem?_eq_some_iff.mp h
  exact List.getElem_mem hi

theorem phase1_source_marking (g : DiGraph) (ts : List TaintSource)
    (i : Nat) (name : String) (generics : List (Option TyObs)) (sp : Nat) (k : Nat)
    (hnode : g.nodes[i]? = some (.functionCall (.fnDef name generics) sp))
    (hlast : lastMatch? ts.enum name = some k) :
    markGet (phase1 g ts).1 (.functionCall (.fnDef name generics) sp) =
      some (.taintSource k) := by
  rw [phase1_markGet]
  have hmem : (DependencyGraphNode.functionCall (.fnDef name generics) sp) ∈ g.nodes :=
    mem_of_getElemOpt hnode
  simp [markOf, hlast, hmem]

/-- C1 counterexample: with a catalog whose first and second entries both
list `f`, the call node for `f` ends the classification scan marked with
the second (last) matching entry, not the first as the claim states —
the `for taint_source in taint_sources` loop has no `break` and each match
overwrites the previous marking. -/
theorem c1_counterexample :
    markGet (phase1 gDoubleMatch [entryA, entryB]).1 callNodeF ≠
      some (.taintSource 0) := by decide

/-- C1 (amended): in the classification scan, a `FunctionCall` node whose
callee's fully-qualified name appears in the function lists of at least one
entry of the active catalog is marked `TaintSource` with the LAST matching
entry in catalog declaration order. -/
theorem c1_amended_last_match_wins (g : DiGraph) (ts : List TaintSource)
    (i : Nat) (name : String) (generics : List (Option TyObs)) (sp : Nat) (k : Nat)
    (hnode : g.nodes[i]? = some (.functionCall (.fnDef name generics) sp))
    (hlast : lastMatch? ts.enum name = some k) :
    markGet (phase1 g ts).1 (.functionCall (.fnDef name generics) sp) =
      some (.taintSource k) :=
  phase1_source_marking g ts i name generics sp k hnode hlast

/-- C1 witness: the amended claim evaluated on the two-entry catalog. -/
theorem c1_amended_witness :
    markGet (phase1 gDoubleMatch [entryA, entryB]).1
      (.functionCall (.fnDef "f" []) 0) = some (.taintSource 1) :=
  c1_amended_last_match_wins gDoubleMatch [entryA, entryB] 0 "f" [] 0 1
    (by decide) (by decide)

theorem optionMapM_count_flatten {α β : Type} [DecidableEq α] [DecidableEq β]
    (f : α → Option (List β)) (l : List α) (r : List (List β)) (i : α)
    (ps : List β) (p : β) (hmap : optionMapM f l = some r) (hf : f i = some ps)
    (hp : p ∈ ps) : l.count i ≤ (r.flatten).count p := by
  induction l generalizing r with
  | nil =>
    simp only [optionMapM] at hmap
    injection hmap with h
    subst h
    simp
  | cons x rest ih =>
    simp only [optionMapM] at hmap
    cases hx : f x with
    | none => rw [hx] at hmap; simp at hmap
    | some ys =>
      rw [hx] at hmap
      cases hr : optionMapM f rest with
      | none => rw [hr] at hmap; simp at hmap
      | some rs =>
        rw [hr] at hmap
        injection hmap with h
        subst h
        have h3 := ih rs hr
        by_cases hxi : x = i
        · subst hxi
          rw [hx] at hf
          injection hf with h2
          subst h2
          have h1 := List.count_pos_iff.mpr hp
          simp only [List.flatten_cons, List.count_append, List.count_cons_self]
          omega
        · rw [List.count_cons_of_ne (fun h => hxi h.symm)]
          simp only [List.flatten_cons, List.count_append]
          omega

/-- C10: a `FunctionCall` node whose callee name is contained in the function
lists of `n ≥ 1` catalog entries is appended to the `sources` worklist `n`
times (the matching loop pushes once per match), and since phase 3 runs one
walk per worklist entry, every problem the walk reports for that call site
occurs at least `n` times in the reported problem list. -/
theorem c10_multi_match_duplication (g : DiGraph) (ts : List TaintSource)
    (i : Nat) (name : String) (generics : List (Option TyObs)) (sp : Nat) (n : Nat)
    (hnode : g.nodes[i]? = some (.functionCall (.fnDef name generics) sp))
    (hcount : matchCount ts.enum name = n) (_hn : 1 ≤ n) :
    ((phase1 g ts).2).count i = n ∧
    (∀ probs ps p, check_data_flow g ts = some probs →
      walkFromSource g (saturatedMarkings g ts) i = some ps → p ∈ ps →
      n ≤ probs.count p) := by
  constructor
  · rw [phase1_srcs_count g ts i _ hnode]
    simp [nodeMatchCount, hcount]
  · intro probs ps p hcheck hwalk hp
    unfold check_data_flow at hcheck
    cases hmap : optionMapM (walkFromSource g (saturatedMarkings g ts)) (phase1 g ts).2 with
    | none => rw [hmap] at hcheck; simp at hcheck
    | some r =>
      rw [hmap] at hcheck
      simp only [Option.map_some'] at hcheck
      injection hcheck with h
      subst h
      have h1 := optionMapM_count_flatten _ _ _ _ _ _ hmap hwalk hp
      have h2 : ((phase1 g ts).2).count i = n := by
        rw [phase1_srcs_count g ts i _ hnode]
        simp [nodeMatchCount, hcount]
      omega

/-- C10 witness: on the fan-out graph with the two-entry catalog, the call
node is enqueued twice and its `Duplicated` report occurs twice. -/
theorem c10_witness :
    2 ≤ List.count
      (⟨1, "f", 20, .duplicated [] [20, 10]⟩ : TaintProblem)
      [⟨1, "f", 20, .duplicated [] [20, 10]⟩, ⟨1, "f", 20, .duplicated [] [20, 10]⟩] :=
  (c10_multi_match_duplication gFanOut [entryA, entryB] 0 "f" [] 0 2
      (by decide) (by decide) (by decide)).2
    [⟨1, "f", 20, .duplicated [] [20, 10]⟩, ⟨1, "f", 20, .duplicated [] [20, 10]⟩]
    [⟨1, "f", 20, .duplicated [] [20, 10]⟩]
    ⟨1, "f", 20, .duplicated [] [20, 10]⟩
    (by decide) (by decide) (by decide)

/-- C2 counterexample: on the fan-out graph, when the source call's name is
listed by two catalog entries the checker reports the `Duplicated` problem
twice (once per worklist occurrence), not exactly once as the claim states. -/
theorem c2_counterexample :
    (check_data_flow gFanOut [entryA, entryB]).map
      (fun probs => probs.countP (fun p => p.problem_type.isDuplicated)) =
      some 2 := by decide

/-- C3 counterexample: the walk advances onto the single move-only edge's
target unconditionally, even when that target is the `TaintSink`-marked
wrapper-typed local; the sink's own outgoing edge to `ReturnedToCaller` then
yields a `Used{ReturnedToCaller}` problem although the claim predicts none. -/
theorem c3_counterexample :
    (check_data_flow gSinkReturn [entryA]).map (fun probs => probs.length) =
      some 1 := by decide

/-- C5 counterexample: on the cycle graph, a catalog listing the callee in
two entries makes the checker report the `DataDependencyLoop` problem twice
for the source, not exactly once as the claim states. -/
theorem c5_counterexample :
    (check_data_flow gLoop [entryA, entryB]).map
      (fun probs => probs.countP (fun p => p.problem_type.isLoop)) =
      some 2 := by decide

/-- C6 counterexample: on the single-copy-edge graph, a catalog listing the
callee in two entries makes the checker report the `Used{Copied}` problem
twice for the source, not exactly once as the claim states. -/
theorem c6_counterexample :
    (check_data_flow gCopyEdge [entryA, entryB]).map
      (fun probs => probs.countP (fun p => p.problem_type.isUsed)) =
      some 2 := by decide

theorem countP_le_of_imp {α : Type} (l : List α) (p q : α → Bool)
    (h : ∀ x ∈ l, p x = true → q x = true) : l.countP p ≤ l.countP q := by
  induction l with
  | nil => simp
  | cons x rest ih =>
    rw [List.countP_cons, List.countP_cons]
    have hr := ih (fun y hy hp => h y (List.mem_cons_of_mem _ hy) hp)
    cases hx : p x with
    | true =>
      have hq := h x (List.mem_cons_self _ _) hx
      simp [hx, hq]
      omega
    | false =>
      simp [hx]
      omega

theorem countP_lt_of_mem {α : Type} (l : List α) (p q : α → Bool) (a : α)
    (ha : a ∈ l) (hpa : p a = true) (hqa : q a = false)
    (h : ∀ x ∈ l, q x = true → p x = true) : l.countP q < l.countP p := by
  induction l with
  | nil => simp at ha
  | cons x rest ih =>
    rw [List.countP_cons, List.countP_cons]
    rcases List.mem_cons.mp ha with rfl | hmem
    · have hle := countP_le_of_imp rest q p
        (fun y hy hq => h y (List.mem_cons_of_mem _ hy) hq)
      simp [hpa, hqa]
      omega
    · have hlt := ih hmem (fun y hy hq => h y (List.mem_cons_of_mem _ hy) hq)
      cases hqx : q x with
      | true =>
        have hpx := h x (List.mem_cons_self _ _) hqx
        simp [hqx, hpx]
        omega
      | false =>
        simp [hqx]
        omega

theorem unmarkedCount_insert_le (g : DiGraph) (m : MarkMap)
    (v : DependencyGraphNode) (mk : Marking) :
    unmarkedCount g (markInsert m v mk) ≤ unmarkedCount g m := by
  apply countP_le_of_imp
  intro x _ h
  rw [markGet_markInsert] at h
  by_cases hv : v = x
  · simp [hv] at h
  · simpa [hv] using h

theorem unmarkedCount_insert_lt (g : DiGraph) (m : MarkMap)
    (v : DependencyGraphNode) (mk : Marking) (hv : v ∈ g.nodes)
    (hm : markGet m v = none) :
    unmarkedCount g (markInsert m v mk) < unmarkedCount g m := by
  apply countP_lt_of_mem _ _ _ v hv
  · simp [hm]
  · simp [markGet_markInsert]
  · intro x _ h
    rw [markGet_markInsert] at h
    by_cases hx : v = x
    · simp [hx] at h
    · simpa [hx] using h

theorem propagateNeighbors_cons_none (g : DiGraph) (m : MarkMap) (nb : Nat)
    (rest : List Nat) (hn : g.nodes[nb]? = none) :
    propagateNeighbors g m (nb :: rest) = propagateNeighbors g m rest := by
  simp [propagateNeighbors, hn]

theorem propagateNeighbors_cons_marked (g : DiGraph) (m : MarkMap) (nb : Nat)
    (rest : List Nat) (nbNode : DependencyGraphNode)
    (hn : g.nodes[nb]? = some nbNode) (hm : (markGet m nbNode).isNone = false) :
    propagateNeighbors g m (nb :: rest) = propagateNeighbors g m rest := by
  simp [propagateNeighbors, hn, hm]

theorem propagateNeighbors_cons_unmarked (g : DiGraph) (m : MarkMap) (nb : Nat)
    (rest : List Nat) (nbNode : DependencyGraphNode)
    (hn : g.nodes[nb]? = some nbNode) (hm : (markGet m nbNode).isNone = true) :
    propagateNeighbors g m (nb :: rest) =
      ((propagateNeighbors g (markInsert m nbNode .tainted) rest).1,
        nb :: (propagateNeighbors g (markInsert m nbNode .tainted) rest).2) := by
  simp [propagateNeighbors, hn, hm]

theorem taintBfs_succ_cons (g : DiGraph) (f : Nat) (m : MarkMap) (n : Nat)
    (rest : List Nat) :
    taintBfs g (f + 1) m (n :: rest) =
      taintBfs g f (propagateNeighbors g m (neighborsOut g n)).1
        (rest ++ (propagateNeighbors g m (neighborsOut g n)).2) := rfl

theorem propagateNeighbors_markGet_mono (g : DiGraph) (m : MarkMap) (l : List Nat)
    (v : DependencyGraphNode) (mk : Marking) (h : markGet m v = some mk) :
    markGet (propagateNeighbors g m l).1 v = some mk := by
  induction l generalizing m with
  | nil => simpa [propagateNeighbors]
  | cons nb rest ih =>
    cases hn : g.nodes[nb]? with
    | none => rw [propagateNeighbors_cons_none g m nb rest hn]; exact ih m h
    | some nbNode =>
      cases hmm : (markGet m nbNode).isNone with
      | false =>
        rw [propagateNeighbors_cons_marked g m nb rest nbNode hn hmm]
        exact ih m h
      | true =>
        rw [propagateNeighbors_cons_unmarked g m nb rest nbNode hn hmm]
        apply ih
        rw [markGet_markInsert]
        by_cases he : nbNode = v
        · subst he
          rw [h] at hmm
          simp at hmm
        · simp [he, h]

theorem propagateNeighbors_markGet_new (g : DiGraph) (m : MarkMap) (l : List Nat)
    (v : DependencyGraphNode) (mk : Marking)
    (h : markGet (propagateNeighbors g m l).1 v = some mk) :
    markGet m v = some mk ∨ mk = .tainted := by
  induction l generalizing m with
  | nil => simp [propagateNeighbors] at h; exact Or.inl h
  | cons nb rest ih =>
    cases hn : g.nodes[nb]? with
    | none =>
      rw [propagateNeighbors_cons_none g m nb rest hn] at h
      exact ih m h
    | some nbNode =>
      cases hmm : (markGet m nbNode).isNone with
      | false =>
        rw [propagateNeighbors_cons_marked g m nb rest nbNode hn hmm] at h
        exact ih m h
      | true =>
        rw [propagateNeighbors_cons_unmarked g m nb rest nbNode hn hmm] at h
        rcases ih _ h with h2 | h2
        · rw [markGet_markInsert] at h2
          by_cases he : nbNode = v
          · simp [he] at h2
            exact Or.inr h2.symm
          · rw [if_neg he] at h2
            exact Or.inl h2
        · exact Or.inr h2

theorem propagateNeighbors_marks (g : DiGraph) (m : MarkMap) (l : List Nat)
    (nb : Nat) (v : DependencyGraphNode) (hmem : nb ∈ l)
    (hv : g.nodes[nb]? = some v) :
    (markGet (propagateNeighbors g m l).1 v).isSome := by
  induction l generalizing m with
  | nil => simp at hmem
  | cons x rest ih =>
    rcases List.mem_cons.mp hmem with rfl | hmem2
    · cases hmk : markGet m v with
      | some mk =>
        have h1 : (markGet m v).isNone = false := by rw [hmk]; rfl
        rw [propagateNeighbors_cons_marked g m nb rest v hv h1]
        rw [propagateNeighbors_markGet_mono g m rest v mk hmk]
        rfl
      | none =>
        have h1 : (markGet m v).isNone = true := by rw [hmk]; rfl
        rw [propagateNeighbors_cons_unmarked g m nb rest v hv h1]
        have h2 : markGet (markInsert m v .tainted) v = some .tainted := by
          rw [markGet_markInsert]; simp
        rw [propagateNeighbors_markGet_mono g _ rest v _ h2]
        rfl
    · cases hn : g.nodes[x]? with
      | none => rw [propagateNeighbors_cons_none g m x rest hn]; exact ih m hmem2
      | some xNode =>
        cases hmm : (markGet m xNode).isNone with
        | false =>
          rw [propagateNeighbors_cons_marked g m x rest xNode hn hmm]
          exact ih m hmem2
        | true =>
          rw [propagateNeighbors_cons_unmarked g m x rest xNode hn hmm]
          exact ih _ hmem2

theorem propagateNeighbors_count (g : DiGraph) (m : MarkMap) (l : List Nat) :
    unmarkedCount g (propagateNeighbors g m l).1 +
      (propagateNeighbors g m l).2.length ≤ unmarkedCount g m := by
  induction l generalizing m with
  | nil => simp [propagateNeighbors]
  | cons nb rest ih =>
    cases hn : g.nodes[nb]? with
    | none => rw [propagateNeighbors_cons_none g m nb rest hn]; exact ih m
    | some nbNode =>
      cases hmm : (markGet m nbNode).isNone with
      | false =>
        rw [propagateNeighbors_cons_marked g m nb rest nbNode hn hmm]
        exact ih m
      | true =>
        rw [propagateNeighbors_cons_unmarked g m nb rest nbNode hn hmm]
        simp only [List.length_cons]
        have h1 := ih (markInsert m nbNode .tainted)
        have h2 : unmarkedCount g (markInsert m nbNode .tainted) < unmarkedCount g m := by
          apply unmarkedCount_insert_lt g m nbNode .tainted (mem_of_getElemOpt hn)
          exact Option.isNone_iff_eq_none.mp hmm
        omega

theorem propagateNeighbors_pushed (g : DiGraph) (m : MarkMap) (l : List Nat)
    (x : Nat) (h : x ∈ (propagateNeighbors g m l).2) :
    ∃ v, g.nodes[x]? = some v ∧ markGet m v = none := by
  induction l generalizing m with
  | nil => simp [propagateNeighbors] at h
  | cons nb rest ih =>
    cases hn : g.nodes[nb]? with
    | none =>
      rw [propagateNeighbors_cons_none g m nb rest hn] at h
      exact ih m h
    | some nbNode =>
      cases hmm : (markGet m nbNode).isNone with
      | false =>
        rw [propagateNeighbors_cons_marked g m nb rest nbNode hn hmm] at h
        exact ih m h
      | true =>
        rw [propagateNeighbors_cons_unmarked g m nb rest nbNode hn hmm] at h
        rcases List.mem_cons.mp h with rfl | h2
        · exact ⟨nbNode, hn, Option.isNone_iff_eq_none.mp hmm⟩
        · obtain ⟨v, hv, hnone⟩ := ih _ h2
          refine ⟨v, hv, ?_⟩
          rw [markGet_markInsert] at hnone
          by_cases he : nbNode = v
          · simp [he] at hnone
          · rwa [if_neg he] at hnone

theorem propagateNeighbors_noop (g : DiGraph) (m : MarkMap) (l : List Nat)
    (h : ∀ nb ∈ l, ∀ v, g.nodes[nb]? = some v → (markGet m v).isSome) :
    propagateNeighbors g m l = (m, []) := by
  induction l with
  | nil => rfl
  | cons nb rest ih =>
    cases hn : g.nodes[nb]? with
    | none =>
      rw [propagateNeighbors_cons_none g m nb rest hn]
      exact ih (fun y hy => h y (List.mem_cons_of_mem _ hy))
    | some nbNode =>
      have hs := h nb (List.mem_cons_self _ _) nbNode hn
      have h1 : (markGet m nbNode).isNone = false := by
        cases hmk : markGet m nbNode
        · rw [hmk] at hs; simp at hs
        · rfl
      rw [propagateNeighbors_cons_marked g m nb rest nbNode hn h1]
      exact ih (fun y hy => h y (List.mem_cons_of_mem _ hy))

theorem taintBfs_markGet_mono (g : DiGraph) (fuel : Nat) (m : MarkMap)
    (q : List Nat) (v : DependencyGraphNode) (mk : Marking)
    (h : markGet m v = some mk) : markGet (taintBfs g fuel m q) v = some mk := by
  induction fuel generalizing m q with
  | zero => exact h
  | succ f ih =>
    cases q with
    | nil => exact h
    | cons n rest =>
      rw [taintBfs_succ_cons]
      exact ih _ _ (propagateNeighbors_markGet_mono _ _ _ _ _ h)

theorem taintBfs_markGet_new (g : DiGraph) (fuel : Nat) (m : MarkMap)
    (q : List Nat) (v : DependencyGraphNode) (mk : Marking)
    (h : markGet (taintBfs g fuel m q) v = some mk) :
    markGet m v = some mk ∨ mk = .tainted := by
  induction fuel generalizing m q with
  | zero => exact Or.inl h
  | succ f ih =>
    cases q with
    | nil => exact Or.inl h
    | cons n rest =>
      rw [taintBfs_succ_cons] at h
      rcases ih _ _ h with h2 | h2
      · exact propagateNeighbors_markGet_new _ _ _ _ _ h2
      · exact Or.inr h2

theorem taintBfs_complete (g : DiGraph) (fuel : Nat) (m : MarkMap) (q : List Nat)
    (x nb : Nat) (v : DependencyGraphNode)
    (hfuel : q.length + unmarkedCount g m ≤ fuel) (hx : x ∈ q)
    (hnb : nb ∈ neighborsOut g x) (hv : g.nodes[nb]? = some v) :
    (markGet (taintBfs g fuel m q) v).isSome := by
  induction fuel generalizing m q with
  | zero =>
    cases q with
    | nil => simp at hx
    | cons n rest => simp at hfuel
  | succ f ih =>
    cases q with
    | nil => simp at hx
    | cons n rest =>
      rw [taintBfs_succ_cons]
      rcases List.mem_cons.mp hx with rfl | hxr
      · have h1 := propagateNeighbors_marks g m (neighborsOut g x) nb v hnb hv
        obtain ⟨mk, hmk⟩ := Option.isSome_iff_exists.mp h1
        rw [taintBfs_markGet_mono g f _ _ v mk hmk]
        rfl
      · apply ih
        · have hc := propagateNeighbors_count g m (neighborsOut g n)
          simp only [List.length_cons] at hfuel
          simp only [List.length_append]
          omega
        · exact List.mem_append_left _ hxr

theorem taintBfs_noop (g : DiGraph) (fuel : Nat) (m : MarkMap) (q : List Nat)
    (h : ∀ x ∈ q, ∀ nb ∈ neighborsOut g x, ∀ v, g.nodes[nb]? = some v →
      (markGet m v).isSome) :
    taintBfs g fuel m q = m := by
  induction fuel generalizing q with
  | zero => rfl
  | succ f ih =>
    cases q with
    | nil => rfl
    | cons n rest =>
      rw [taintBfs_succ_cons]
      rw [propagateNeighbors_noop g m _ (h n (List.mem_cons_self _ _))]
      simp only [List.append_nil]
      exact ih rest (fun y hy => h y (List.mem_cons_of_mem _ hy))

/-- C4: markings are monotonic: every marking present after the phase-1 scan
(in particular `TaintSink` and `TaintSource`) survives the breadth-first
saturation unchanged; saturation only ever adds `Tainted` for nodes with no
existing marking; and only previously-unmarked nodes are ever enqueued, so a
marked node is never re-enqueued or overwritten. -/
theorem c4_monotonic_markings (g : DiGraph) (ts : List TaintSource)
    (v : DependencyGraphNode) :
    (∀ mk, markGet (phase1 g ts).1 v = some mk →
      markGet (saturatedMarkings g ts) v = some mk) ∧
    (∀ mk, markGet (saturatedMarkings g ts) v = some mk →
      markGet (phase1 g ts).1 v = some mk ∨ mk = .tainted) ∧
    (∀ m l x, x ∈ (propagateNeighbors g m l).2 →
      ∃ nd, g.nodes[x]? = some nd ∧ markGet m nd = none) := by
  unfold saturatedMarkings
  refine ⟨?_, ?_, ?_⟩
  · intro mk h
    exact taintBfs_markGet_mono _ _ _ _ _ _ h
  · intro mk h
    exact taintBfs_markGet_new _ _ _ _ _ _ h
  · intro m l x h
    exact propagateNeighbors_pushed g m l x h

/-- C4 witness: the wrapper-typed local marked `TaintSink` in phase 1 still
carries `TaintSink` after saturation on the sink-return graph. -/
theorem c4_witness :
    markGet (saturatedMarkings gSinkReturn [entryA]) sinkLocal = some .taintSink :=
  (c4_monotonic_markings gSinkReturn [entryA] sinkLocal).1 .taintSink (by decide)

/-- C7: `check_data_flow` is deterministic — two runs on the same graph and
catalog produce the same problem list — and the phase-2 saturation is an
idempotent fixpoint: re-running the breadth-first pass on the saturated
markings (with the same seed worklist) changes nothing. -/
theorem c7_deterministic_idempotent (g : DiGraph) (ts : List TaintSource) :
    check_data_flow g ts = check_data_flow g ts ∧
    taintBfs g ((phase1 g ts).2.length + g.nodes.length + 1)
      (saturatedMarkings g ts) (phase1 g ts).2 = saturatedMarkings g ts := by
  refine ⟨rfl, ?_⟩
  apply taintBfs_noop
  intro x hx nb hnb v hv
  unfold saturatedMarkings
  apply taintBfs_complete g _ _ _ x nb v ?_ hx hnb hv
  have hcount : unmarkedCount g (phase1 g ts).1 ≤ g.nodes.length := by
    unfold unmarkedCount
    exact List.countP_le_length _
  omega

theorem saturated_source_marking (g : DiGraph) (ts : List TaintSource)
    (i : Nat) (name : String) (generics : List (Option TyObs)) (sp : Nat) (k : Nat)
    (hnode : g.nodes[i]? = some (.functionCall (.fnDef name generics) sp))
    (hlast : lastMatch? ts.enum name = some k) :
    markGet (saturatedMarkings g ts) (.functionCall (.fnDef name generics) sp) =
      some (.taintSource k) := by
  unfold saturatedMarkings
  exact taintBfs_markGet_mono _ _ _ _ _ _
    (phase1_source_marking g ts i name generics sp k hnode hlast)

theorem lastMatch_isSome_of_matchCount (entries : List (Nat × TaintSource))
    (name : String) (h : 1 ≤ matchCount entries name) :
    ∃ k, lastMatch? entries name = some k := by
  induction entries with
  | nil => simp [matchCount] at h
  | cons e rest ih =>
    obtain ⟨j, t⟩ := e
    simp only [matchCount] at h
    simp only [lastMatch?]
    cases hr : lastMatch? rest name with
    | some k => exact ⟨k, rfl⟩
    | none =>
      cases hc : t.functions.contains name with
      | true => exact ⟨j, by simp⟩
      | false =>
        rw [hc] at h
        simp at h
        obtain ⟨k, hk⟩ := ih (by omega)
        rw [hk] at hr
        cases hr

theorem firstSpan_isSome_of_ne_nil (e : GraphEdge) (h : e.instances ≠ []) :
    ∃ sp, firstSpan? e = some sp := by
  cases hi : e.instances with
  | nil => exact absurd hi h
  | cons a tl => exact ⟨a.span, by simp [firstSpan?, hi]⟩

theorem optionMapM_isSome {α β : Type} (f : α → Option β) (l : List α)
    (h : ∀ x ∈ l, ∃ y, f x = some y) :
    ∃ r, optionMapM f l = some r ∧
      ∀ x ∈ l, ∀ y, f x = some y → y ∈ r := by
  induction l with
  | nil => exact ⟨[], rfl, by simp⟩
  | cons a tl ih =>
    obtain ⟨y, hy⟩ := h a (List.mem_cons_self _ _)
    obtain ⟨r, hr, hmem⟩ := ih (fun x hx => h x (List.mem_cons_of_mem _ hx))
    refine ⟨y :: r, ?_, ?_⟩
    · simp [optionMapM, hy, hr]
    · intro x hx z hz
      rcases List.mem_cons.mp hx with rfl | hx2
      · rw [hy] at hz
        injection hz with hz
        subst hz
        exact List.mem_cons_self _ _
      · exact List.mem_cons_of_mem _ (hmem x hx2 z hz)

theorem mem_edges_of_mem_outEdges (g : DiGraph) (i : Nat) (e : EdgeRef)
    (h : e ∈ outEdges g i) : e ∈ g.edges := by
  unfold outEdges at h
  rw [List.mem_reverse] at h
  exact (List.mem_filter.mp h).1

theorem eq_singleton_of_length_count {l : List Nat} {x : Nat}
    (hlen : l.length = 1) (hcount : l.count x = 1) : l = [x] := by
  cases l with
  | nil => simp at hlen
  | cons a tl =>
    cases tl with
    | cons b tl2 => simp at hlen
    | nil =>
      have : a = x := by
        by_cases hax : x = a
        · exact hax.symm
        · rw [List.count_singleton'] at hcount
          simp [hax] at hcount
          exact hcount
      rw [this]

/-- C6 (amended): for a `TaintSource` node whose callee name is listed by
exactly one catalog entry and whose single outgoing edge carries at least one
non-`Move` instance, the walk for that (unique) worklist occurrence reports
exactly one `Used{Copied}` problem located at the edge's first recorded
instance, with an empty statement chain, and traverses no further. -/
theorem c6_amended_single_copy (g : DiGraph) (ts : List TaintSource)
    (i : Nat) (name : String) (generics : List (Option TyObs)) (sp : Nat)
    (e : EdgeRef) (inst : EdgeInstance)
    (hnode : g.nodes[i]? = some (.functionCall (.fnDef name generics) sp))
    (hcount : matchCount ts.enum name = 1)
    (hedges : outEdges g i = [e])
    (hinst : e.weight.instances.head? = some inst)
    (hused : e.weight.is_move_only = false) :
    ((phase1 g ts).2).count i = 1 ∧
    ∃ k, lastMatch? ts.enum name = some k ∧
      walkFromSource g (saturatedMarkings g ts) i =
        some [⟨k, name, inst.span, .used [] inst.span .copied⟩] := by
  constructor
  · rw [phase1_srcs_count g ts i _ hnode]
    simp [nodeMatchCount, hcount]
  · obtain ⟨k, hk⟩ := lastMatch_isSome_of_matchCount ts.enum name (by omega)
    refine ⟨k, hk, ?_⟩
    have hmark := saturated_source_marking g ts i name generics sp k hnode hk
    unfold walkFromSource
    rw [hnode]
    simp only [hmark, hedges, firstSpan?, hinst, Option.map_some', hused,
      Bool.false_eq_true, if_false]

/-- C6 witness: the amended claim evaluated on the copy-edge graph with a
single-entry catalog. -/
theorem c6_amended_witness :
    walkFromSource gCopyEdge (saturatedMarkings gCopyEdge [entryA]) 0 =
      some [⟨0, "f", 10, .used [] 10 .copied⟩] := by
  obtain ⟨-, k, hk, hw⟩ := c6_amended_single_copy gCopyEdge [entryA] 0 "f" [] 0
    ⟨0, 1, ⟨[⟨10, .used⟩]⟩⟩ ⟨10, .used⟩
    (by decide) (by decide) (by decide) (by decide) (by decide)
  have hk0 : lastMatch? ([entryA] : List TaintSource).enum "f" = some 0 := by decide
  rw [hk0] at hk
  injection hk with hk
  rw [← hk] at hw
  exact hw

/-- C2 (amended): for a `TaintSource` node with two or more outgoing edges
whose callee name is listed by exactly one catalog entry (and a graph whose
edges all carry at least one instance, as the builder guarantees), the walk
for that (unique) worklist occurrence reports exactly one `Duplicated`
problem with an empty chain whose targets contain the first recorded
instance location of every outgoing edge of the source. -/
theorem c2_amended_duplicated (g : DiGraph) (ts : List TaintSource)
    (i : Nat) (name : String) (generics : List (Option TyObs)) (sp : Nat)
    (hnode : g.nodes[i]? = some (.functionCall (.fnDef name generics) sp))
    (hcount : matchCount ts.enum name = 1)
    (hlen : 2 ≤ (outEdges g i).length)
    (hwf : ∀ e ∈ g.edges, e.weight.instances ≠ []) :
    ((phase1 g ts).2).count i = 1 ∧
    ∃ k t0 targets, lastMatch? ts.enum name = some k ∧
      walkFromSource g (saturatedMarkings g ts) i =
        some [⟨k, name, t0, .duplicated [] targets⟩] ∧
      (∀ e ∈ outEdges g i, ∀ inst, e.weight.instances.head? = some inst →
        inst.span ∈ targets) := by
  constructor
  · rw [phase1_srcs_count g ts i _ hnode]
    simp [nodeMatchCount, hcount]
  · obtain ⟨k, hk⟩ := lastMatch_isSome_of_matchCount ts.enum name (by omega)
    have hmark := saturated_source_marking g ts i name generics sp k hnode hk
    have hall : ∀ e ∈ outEdges g i, ∃ y, firstSpan? e.weight = some y := by
      intro e he
      exact firstSpan_isSome_of_ne_nil _ (hwf e (mem_edges_of_mem_outEdges g i e he))
    obtain ⟨targets, hmapm, hmemtargets⟩ :=
      optionMapM_isSome (fun e => firstSpan? e.weight) (outEdges g i) hall
    cases h0 : outEdges g i with
    | nil => rw [h0] at hlen; simp at hlen
    | cons e0 tl =>
      cases tl with
      | nil => rw [h0] at hlen; simp at hlen
      | cons e1 tl2 =>
        obtain ⟨t0, ht0⟩ := hall e0 (by rw [h0]; exact List.mem_cons_self _ _)
        refine ⟨k, t0, targets, hk, ?_, ?_⟩
        · unfold walkFromSource
          rw [hnode]
          rw [h0] at hmapm
          simp only [hmark, h0, ht0, hmapm]
        · intro e he inst hin
          apply hmemtargets e (by rw [h0]; exact he)
          simp [firstSpan?, hin]

/-- C2 witness: the amended claim's hypotheses hold on the fan-out graph with
a single-entry catalog, and the source occurs exactly once in the worklist. -/
theorem c2_amended_witness :
    ((phase1 gFanOut [entryA]).2).count 0 = 1 :=
  (c2_amended_duplicated gFanOut [entryA] 0 "f" [] 0
    (by decide) (by decide) (by decide) (by decide)).1

/-- C3 (amended): if a `TaintSource` node's single outgoing edge is move-only
and leads to a node marked `TaintSink` in phase 1 which itself has no
outgoing edges, the walk for that source reports no problem.  (The extra
no-outgoing-edges condition is forced: the walk advances onto the sink and
keeps analysing its successors, see the counterexample.) -/
theorem c3_amended_clean_escape (g : DiGraph) (ts : List TaintSource)
    (i : Nat) (name : String) (generics : List (Option TyObs)) (sp : Nat) (k : Nat)
    (e : EdgeRef) (tn : DependencyGraphNode)
    (hnode : g.nodes[i]? = some (.functionCall (.fnDef name generics) sp))
    (hlast : lastMatch? ts.enum name = some k)
    (hedges : outEdges g i = [e])
    (hmove : e.weight.is_move_only = true)
    (hne : e.weight.instances ≠ [])
    (htn : g.nodes[e.tgt]? = some tn)
    (hsink : markGet (phase1 g ts).1 tn = some .taintSink)
    (hout : outEdges g e.tgt = []) :
    walkFromSource g (saturatedMarkings g ts) i = some [] := by
  obtain ⟨sp0, hsp0⟩ := firstSpan_isSome_of_ne_nil e.weight hne
  have hmark := saturated_source_marking g ts i name generics sp k hnode hlast
  have htgtne : e.tgt ≠ i := by
    intro h
    rw [h, hnode] at htn
    injection htn with htn
    have h2 := phase1_source_marking g ts i name generics sp k hnode hlast
    rw [htn, hsink] at h2
    simp at h2
  have hconn : (edgesConnecting g i e.tgt)[0]? = some e.weight := by
    unfold edgesConnecting
    rw [hedges]
    simp
  have hnbo : neighborsOut g e.tgt = [] := by
    simp [neighborsOut, hout]
  unfold walkFromSource
  rw [hnode]
  simp only [hmark, hedges, hsp0, hmove, if_true]
  rw [show g.nodes.length + g.edges.length + 2 =
    g.nodes.length + g.edges.length + 1 + 1 from rfl]
  simp only [walkLoop, List.getLast?_singleton, Option.getD_some, hconn]
  rw [show ([i].contains e.tgt) = false from by
    simp [List.contains_cons, htgtne]]
  simp only [Bool.false_eq_true, if_false, hnbo]
  simp [walkLoop]

/-- C3 witness: the amended claim evaluated where the sink has no outgoing
edges — the taint escapes cleanly and no problem is reported. -/
theorem c3_amended_witness :
    walkFromSource gSinkStop (saturatedMarkings gSinkStop [entryA]) 0 = some [] :=
  c3_amended_clean_escape gSinkStop [entryA] 0 "f" [] 0 0
    ⟨0, 1, ⟨[⟨10, .move⟩]⟩⟩ sinkLocal
    (by decide) (by decide) (by decide) (by decide) (by decide) (by decide)
    (by decide) (by decide)

theorem taintBfs_succ_nil (g : DiGraph) (f : Nat) (m : MarkMap) :
    taintBfs g (f + 1) m [] = m := rfl

theorem propagateNeighbors_nil (g : DiGraph) (m : MarkMap) :
    propagateNeighbors g m [] = (m, []) := rfl

/-- C5 (amended): scenario C — source → local a (move) → local b (move) →
local a again, no other outgoing edges, non-wrapper-typed locals, and the
callee listed by exactly one catalog entry — yields exactly one
`DataDependencyLoop` problem whose loop-closing location is the b→a edge's
first instance and whose statement chain holds only the two earlier hops. -/
theorem c5_amended_loop (ts : List TaintSource) (name : String)
    (generics : List (Option TyObs)) (sp : Nat) (da db : Nat) (tya tyb : TyKind)
    (s1 s2 s3 : Nat) (k : Nat)
    (hcount : matchCount ts.enum name = 1)
    (hlast : lastMatch? ts.enum name = some k)
    (hda : isUntrustedValueAdt tya = false)
    (hdb : isUntrustedValueAdt tyb = false)
    (hab : da ≠ db) :
    check_data_flow (loopGraph name generics sp da db tya tyb s1 s2 s3) ts =
      some [⟨k, name, s1, .dataDependencyLoop [s1, s2] s3⟩] := by
  set g := loopGraph name generics sp da db tya tyb s1 s2 s3 with hg
  have n0 : g.nodes[0]? = some (.functionCall (.fnDef name generics) sp) := by
    rw [hg]; rfl
  have n1 : g.nodes[1]? = some (.local da tya) := by rw [hg]; rfl
  have n2 : g.nodes[2]? = some (.local db tyb) := by rw [hg]; rfl
  have hnb0 : neighborsOut g 0 = [1] := by rw [hg]; rfl
  have hnb1 : neighborsOut g 1 = [2] := by rw [hg]; rfl
  have hnb2 : neighborsOut g 2 = [1] := by rw [hg]; rfl
  have e01 : outEdges g 0 = [⟨0, 1, ⟨[⟨s1, .move⟩]⟩⟩] := by rw [hg]; rfl
  have conn01 : (edgesConnecting g 0 1)[0]? = some ⟨[⟨s1, .move⟩]⟩ := by rw [hg]; rfl
  have conn12 : (edgesConnecting g 1 2)[0]? = some ⟨[⟨s2, .move⟩]⟩ := by rw [hg]; rfl
  have conn21 : (edgesConnecting g 2 1)[0]? = some ⟨[⟨s3, .move⟩]⟩ := by rw [hg]; rfl
  have dab : (DependencyGraphNode.local da tya) ≠ (.local db tyb) := by
    intro h
    injection h with h1 h2
    exact hab h1
  have dba : (DependencyGraphNode.local db tyb) ≠ (.local da tya) :=
    fun h => dab h.symm
  have dfa : (DependencyGraphNode.local da tya) ≠
      (.functionCall (.fnDef name generics) sp) := by
    intro h
    exact DependencyGraphNode.noConfusion h
  have dfb : (DependencyGraphNode.local db tyb) ≠
      (.functionCall (.fnDef name generics) sp) := by
    intro h
    exact DependencyGraphNode.noConfusion h
  have hm0a : markGet (phase1 g ts).1 (.local da tya) = none := by
    rw [phase1_markGet]
    simp [markOf, hda]
  have hm0b : markGet (phase1 g ts).1 (.local db tyb) = none := by
    rw [phase1_markGet]
    simp [markOf, hdb]
  have hm0f : markGet (phase1 g ts).1 (.functionCall (.fnDef name generics) sp) =
      some (.taintSource k) := phase1_source_marking g ts 0 name generics sp k n0 hlast
  have hsrcs : (phase1 g ts).2 = [0] := by
    apply eq_singleton_of_length_count
    · rw [phase1_srcs_length, hg]
      simp [loopGraph, nodeMatchCount, hcount]
    · rw [phase1_srcs_count g ts 0 _ n0]
      simp [nodeMatchCount, hcount]
  have hm1b : markGet (markInsert (phase1 g ts).1 (.local da tya) .tainted)
      (.local db tyb) = none := by
    rw [markGet_markInsert, if_neg dab]
    exact hm0b
  have hm2a : markGet (markInsert (markInsert (phase1 g ts).1 (.local da tya) .tainted)
      (.local db tyb) .tainted) (.local da tya) = some .tainted := by
    rw [markGet_markInsert, if_neg dba, markGet_markInsert, if_pos rfl]
  have hM : saturatedMarkings g ts =
      markInsert (markInsert (phase1 g ts).1 (.local da tya) .tainted)
        (.local db tyb) .tainted := by
    unfold saturatedMarkings
    rw [hsrcs]
    have hflen : ([0] : List Nat).length + g.nodes.length + 1 = 3 + 1 + 1 := by
      rw [hg]; rfl
    rw [hflen]
    rw [taintBfs_succ_cons g (3 + 1) _ 0 []]
    rw [hnb0]
    rw [propagateNeighbors_cons_unmarked g _ 1 [] (.local da tya) n1
      (by rw [hm0a]; rfl)]
    simp only [propagateNeighbors_nil, List.nil_append]
    rw [taintBfs_succ_cons g 3 _ 1 []]
    rw [hnb1]
    rw [propagateNeighbors_cons_unmarked g _ 2 [] (.local db tyb) n2
      (by rw [hm1b]; rfl)]
    simp only [propagateNeighbors_nil, List.nil_append]
    rw [show (3 : Nat) = 2 + 1 from rfl]
    rw [taintBfs_succ_cons g 2 _ 2 []]
    rw [hnb2]
    rw [propagateNeighbors_cons_marked g _ 1 [] (.local da tya) n1
      (by rw [hm2a]; rfl)]
    simp only [propagateNeighbors_nil, List.nil_append]
    rw [show (2 : Nat) = 1 + 1 from rfl]
    rw [taintBfs_succ_nil]
  have hMf : markGet (saturatedMarkings g ts)
      (.functionCall (.fnDef name generics) sp) = some (.taintSource k) := by
    rw [hM, markGet_markInsert, if_neg dfb, markGet_markInsert, if_neg dfa]
    exact hm0f
  have hMa : markGet (saturatedMarkings g ts) (.local da tya) = some .tainted := by
    rw [hM]
    exact hm2a
  have hMb : markGet (saturatedMarkings g ts) (.local db tyb) = some .tainted := by
    rw [hM, markGet_markInsert, if_pos rfl]
  have hc1 : ([0] : List Nat).contains 1 = false := by decide
  have hc2 : ([0, 1] : List Nat).contains 2 = false := by decide
  have hc3 : ([0, 1, 2] : List Nat).contains 1 = true := by decide
  have hgl1 : ([0, 1] : List Nat).getLast? = some 1 := by decide
  have hgl2 : ([0, 1, 2] : List Nat).getLast? = some 2 := by decide
  have hwalk : walkFromSource g (saturatedMarkings g ts) 0 =
      some [⟨k, name, s1, .dataDependencyLoop [s1, s2] s3⟩] := by
    unfold walkFromSource
    rw [n0]
    have hfuel : g.nodes.length + g.edges.length + 2 = 5 + 1 + 1 + 1 := by
      rw [hg]; rfl
    simp only [hMf, e01, hfuel, firstSpan?, List.head?_cons, Option.map_some',
      GraphEdge.is_move_only, List.all_cons, List.all_nil]
    simp only [walkLoop, List.getLast?_singleton, Option.getD_some, conn01,
      List.nil_append, hc1, Bool.false_eq_true, if_false, List.cons_append,
      hnb1, n2, conn12, hMb, hgl1, hc2, hnb2, n1, conn21, hMa, hgl2, hc3,
      if_true, List.length_cons, List.length_nil]
    simp [optionMapM, firstSpan?, GraphEdge.is_move_only]
  unfold check_data_flow
  rw [hsrcs]
  simp only [optionMapM, hwalk]
  rfl

/-- C5 witness: the amended scenario evaluated on concrete locals and spans. -/
theorem c5_amended_witness :
    check_data_flow (loopGraph "f" [] 0 1 2 (.other 0) (.other 0) 10 20 30)
      [entryA] = some [⟨0, "f", 10, .dataDependencyLoop [10, 20] 30⟩] :=
  c5_amended_loop [entryA] "f" [] 0 1 2 (.other 0) (.other 0) 10 20 30 0
    (by decide) (by decide) (by decide) (by decide) (by decide)

theorem updateLastEdge_none (fi ti : Nat) (inst : EdgeInstance) (l : List EdgeRef)
    (h : updateLastEdge fi ti inst l = none) :
    ∀ e ∈ l, ¬(e.src = fi ∧ e.tgt = ti) := by
  induction l with
  | nil =>
    intro e he
    simp at he
  | cons x rest ih =>
    simp only [updateLastEdge] at h
    cases hr : updateLastEdge fi ti inst rest with
    | some l2 =>
      rw [hr] at h
      cases h
    | none =>
      rw [hr] at h
      intro e he
      rcases List.mem_cons.mp he with rfl | he2
      · intro hx
        rw [if_pos hx] at h
        cases h
      · exact ih hr e he2

theorem updateLastEdge_spec (fi ti : Nat) (inst : EdgeInstance)
    (l l2 : List EdgeRef) (h : updateLastEdge fi ti inst l = some l2) :
    ∃ pre e post, l = pre ++ e :: post ∧ e.src = fi ∧ e.tgt = ti ∧
      (∀ e2 ∈ post, ¬(e2.src = fi ∧ e2.tgt = ti)) ∧
      l2 = pre ++ (⟨e.src, e.tgt, ⟨e.weight.instances ++ [inst]⟩⟩ : EdgeRef) :: post := by
  induction l generalizing l2 with
  | nil => simp [updateLastEdge] at h
  | cons x rest ih =>
    simp only [updateLastEdge] at h
    cases hr : updateLastEdge fi ti inst rest with
    | some r2 =>
      rw [hr] at h
      injection h with h
      obtain ⟨pre, e, post, hl, hsrc, htgt, hpost, hr2⟩ := ih r2 hr
      refine ⟨x :: pre, e, post, by rw [hl]; rfl, hsrc, htgt, hpost, ?_⟩
      rw [← h, hr2]
      rfl
    | none =>
      rw [hr] at h
      by_cases hx : x.src = fi ∧ x.tgt = ti
      · rw [if_pos hx] at h
        injection h with h
        exact ⟨[], x, rest, rfl, hx.1, hx.2,
          updateLastEdge_none fi ti inst rest hr, h.symm⟩
      · rw [if_neg hx] at h
        cases h

theorem filter_unique {α : Type} (l : List α) (p : α → Bool)
    (hlen : (l.filter p).length ≤ 1) (a b : α) (ha : a ∈ l) (hpa : p a = true)
    (hb : b ∈ l) (hpb : p b = true) : a = b := by
  have ha2 : a ∈ l.filter p := List.mem_filter.mpr ⟨ha, hpa⟩
  have hb2 : b ∈ l.filter p := List.mem_filter.mpr ⟨hb, hpb⟩
  cases hf : l.filter p with
  | nil =>
    rw [hf] at ha2
    simp at ha2
  | cons x tl =>
    rw [hf] at ha2 hb2 hlen
    cases tl with
    | cons y tl2 => simp at hlen
    | nil =>
      simp at ha2 hb2
      rw [ha2, hb2]

theorem getNodeOrInsert_edges (s : DataFlowTaintTracker) (n : DependencyGraphNode) :
    ((getNodeOrInsert s n).1).data_dependency_graph.edges =
      s.data_dependency_graph.edges := by
  unfold getNodeOrInsert
  cases idxGet s.data_dependency_graph_index n <;> rfl

theorem length_filter_congr {α : Type} (p : α → Bool) (pre post : List α)
    (a b : α) (hab : p a = p b) :
    (List.filter p (pre ++ a :: post)).length =
      (List.filter p (pre ++ b :: post)).length := by
  rw [List.filter_append, List.filter_append, List.filter_cons, List.filter_cons, hab]
  cases p b <;> simp

theorem edgeInv_preserved (s : DataFlowTaintTracker)
    (fromNode toNode : DependencyGraphNode) (sp : Nat) (fl : EdgeDataFlowType)
    (hinv : EdgeInv s.data_dependency_graph) :
    EdgeInv (add_data_dependency_edge s fromNode toNode sp fl).data_dependency_graph := by
  obtain ⟨hpair, hne⟩ := hinv
  unfold add_data_dependency_edge
  dsimp only
  have hedges :
      (getNodeOrInsert (getNodeOrInsert s fromNode).1 toNode).1.data_dependency_graph.edges =
        s.data_dependency_graph.edges := by
    rw [getNodeOrInsert_edges, getNodeOrInsert_edges]
  rw [hedges]
  cases hu : updateLastEdge (getNodeOrInsert s fromNode).2
      (getNodeOrInsert (getNodeOrInsert s fromNode).1 toNode).2 ⟨sp, fl⟩
      s.data_dependency_graph.edges with
  | some l2 =>
    dsimp only
    obtain ⟨pre, e, post, hl, hsrc, htgt, hpost, hl2⟩ :=
      updateLastEdge_spec _ _ _ _ _ hu
    constructor
    · intro i j
      dsimp only
      have hthis := hpair i j
      rw [hl] at hthis
      rw [hl2]
      rw [length_filter_congr (fun e2 => decide (e2.src = i ∧ e2.tgt = j)) pre post
        ⟨e.src, e.tgt, ⟨e.weight.instances ++ [(⟨sp, fl⟩ : EdgeInstance)]⟩⟩ e rfl]
      exact hthis
    · dsimp only
      intro e2 he2
      rw [hl2] at he2
      rcases List.mem_append.mp he2 with hmem | hmem
      · exact hne e2 (by rw [hl]; exact List.mem_append_left _ hmem)
      · rcases List.mem_cons.mp hmem with rfl | hmem2
        · simp only [ne_eq]
          intro habs
          exact absurd (List.append_eq_nil.mp habs).1
            (hne e (by rw [hl]; exact List.mem_append_right _ (List.mem_cons_self _ _)))
        · exact hne e2 (by
            rw [hl]
            exact List.mem_append_right _ (List.mem_cons_of_mem _ hmem2))
  | none =>
    dsimp only
    constructor
    · intro i j
      dsimp only
      rw [List.filter_append, List.length_append]
      by_cases hij : ((getNodeOrInsert s fromNode).2 = i ∧
          (getNodeOrInsert (getNodeOrInsert s fromNode).1 toNode).2 = j)
      · have hnil : s.data_dependency_graph.edges.filter
            (fun e => decide (e.src = i ∧ e.tgt = j)) = [] := by
          rw [List.filter_eq_nil_iff]
          intro e he
          have hno := updateLastEdge_none _ _ _ _ hu e he
          simp only [decide_eq_true_eq]
          intro habs
          exact hno ⟨by rw [habs.1, hij.1], by rw [habs.2, hij.2]⟩
        rw [hnil]
        simp [hij.1, hij.2]
      · have h0 : (([⟨(getNodeOrInsert s fromNode).2,
            (getNodeOrInsert (getNodeOrInsert s fromNode).1 toNode).2,
            ⟨[⟨sp, fl⟩]⟩⟩] : List EdgeRef).filter
              (fun e => decide (e.src = i ∧ e.tgt = j))).length = 0 := by
          simp only [List.filter, decide_eq_true_eq]
          split
          · next hcond => exact absurd (of_decide_eq_true hcond) hij
          · rfl
        rw [h0]
        have := hpair i j
        omega
    · dsimp only
      intro e2 he2
      rcases List.mem_append.mp he2 with hmem | hmem
      · exact hne e2 hmem
      · rcases List.mem_cons.mp hmem with rfl | hmem2
        · simp
        · simp at hmem2

theorem edgeInv_empty : EdgeInv emptyTracker.data_dependency_graph := by
  constructor
  · intro i j
    simp [emptyTracker]
  · intro e he
    simp [emptyTracker] at he

theorem edgeInv_foldl (calls : List EdgeCall) (s : DataFlowTaintTracker)
    (hinv : EdgeInv s.data_dependency_graph) :
    EdgeInv ((calls.foldl
      (fun s c => add_data_dependency_edge s c.fromNode c.toNode c.span c.flow_type)
      s).data_dependency_graph) := by
  induction calls generalizing s with
  | nil => exact hinv
  | cons c rest ih =>
    exact ih _ (edgeInv_preserved _ _ _ _ _ hinv)

/-- C8: the multigraph invariant holds after any sequence of
`add_data_dependency_edge` calls — at most one edge per ordered pair of node
indices and no empty instance list — and a call for a pair that already has
an edge appends an instance to that edge (the edge count is unchanged and
the updated edge carries the old instances plus the new one). -/
theorem c8_multigraph_invariant :
    (∀ calls, EdgeInv (runEdgeCalls calls).data_dependency_graph) ∧
    (∀ s fromNode toNode sp fl, EdgeInv s.data_dependency_graph →
      EdgeInv (add_data_dependency_edge s fromNode toNode sp fl).data_dependency_graph) ∧
    (∀ s fromNode toNode sp fl, EdgeInv s.data_dependency_graph →
      ∀ e ∈ s.data_dependency_graph.edges,
        e.src = (getNodeOrInsert s fromNode).2 →
        e.tgt = (getNodeOrInsert (getNodeOrInsert s fromNode).1 toNode).2 →
        (add_data_dependency_edge s fromNode toNode sp fl).data_dependency_graph.edges.length
            = s.data_dependency_graph.edges.length ∧
        (⟨e.src, e.tgt, ⟨e.weight.instances ++ [⟨sp, fl⟩]⟩⟩ : EdgeRef) ∈
          (add_data_dependency_edge s fromNode toNode sp fl).data_dependency_graph.edges) := by
  refine ⟨fun calls => edgeInv_foldl calls emptyTracker edgeInv_empty,
    fun s f t sp fl h => edgeInv_preserved s f t sp fl h, ?_⟩
  intro s fromNode toNode sp fl hinv e hmem hsrc htgt
  obtain ⟨hpair, _⟩ := hinv
  unfold add_data_dependency_edge
  dsimp only
  have hedges :
      (getNodeOrInsert (getNodeOrInsert s fromNode).1 toNode).1.data_dependency_graph.edges =
        s.data_dependency_graph.edges := by
    rw [getNodeOrInsert_edges, getNodeOrInsert_edges]
  rw [hedges]
  cases hu : updateLastEdge (getNodeOrInsert s fromNode).2
      (getNodeOrInsert (getNodeOrInsert s fromNode).1 toNode).2 ⟨sp, fl⟩
      s.data_dependency_graph.edges with
  | none =>
    exact absurd ⟨hsrc, htgt⟩ (updateLastEdge_none _ _ _ _ hu e hmem)
  | some l2 =>
    dsimp only
    obtain ⟨pre, e2, post, hl, hsrc2, htgt2, hpost, hl2⟩ :=
      updateLastEdge_spec _ _ _ _ _ hu
    have hee : e = e2 := by
      apply filter_unique s.data_dependency_graph.edges
        (fun x => decide (x.src = (getNodeOrInsert s fromNode).2 ∧
          x.tgt = (getNodeOrInsert (getNodeOrInsert s fromNode).1 toNode).2))
        ?_ e e2 hmem ?_ ?_ ?_
      · exact hpair _ _
      · simp [hsrc, htgt]
      · rw [hl]
        exact List.mem_append_right _ (List.mem_cons_self _ _)
      · simp [hsrc2, htgt2]
    constructor
    · rw [hl2, hl]
      simp
    · rw [hl2, hee]
      exact List.mem_append_right _ (List.mem_cons_self _ _)

/-- C8 witness: two recorded flows between the same pair of nodes leave a
single edge whose length is unchanged by the second call. -/
theorem c8_witness :
    (add_data_dependency_edge
        (runEdgeCalls [⟨.functionInput, .local 1 (.other 0), 5, .move⟩])
        DependencyGraphNode.functionInput (.local 1 (.other 0)) 6
        .used).data_dependency_graph.edges.length =
      (runEdgeCalls
        [⟨.functionInput, .local 1 (.other 0), 5, .move⟩]).data_dependency_graph.edges.length :=
  (c8_multigraph_invariant.2.2
    (runEdgeCalls [⟨.functionInput, .local 1 (.other 0), 5, .move⟩])
    DependencyGraphNode.functionInput (.local 1 (.other 0)) 6 .used
    (c8_multigraph_invariant.1 [⟨.functionInput, .local 1 (.other 0), 5, .move⟩])
    ⟨0, 1, ⟨[⟨5, .move⟩]⟩⟩ (by decide) (by decide) (by decide)).1

theorem mem_uniqueFirstAux (seen l : List TaintSource) (x : TaintSource) :
    x ∈ uniqueFirstAux seen l ↔ (x ∈ l ∧ x ∉ seen) := by
  induction l generalizing seen with
  | nil => simp [uniqueFirstAux]
  | cons y rest ih =>
    simp only [uniqueFirstAux]
    cases hc : seen.contains y with
    | true =>
      have hy : y ∈ seen := List.elem_iff.mp hc
      rw [if_pos rfl]
      rw [ih seen]
      constructor
      · rintro ⟨hx, hnx⟩
        exact ⟨List.mem_cons_of_mem _ hx, hnx⟩
      · rintro ⟨hx, hnx⟩
        rcases List.mem_cons.mp hx with rfl | h2
        · exact absurd hy hnx
        · exact ⟨h2, hnx⟩
    | false =>
      have hy : y ∉ seen := by
        intro habs
        have h2 : seen.contains y = true := List.elem_iff.mpr habs
        rw [h2] at hc
        cases hc
      rw [if_neg (by simp)]
      simp only [List.mem_cons]
      rw [ih (y :: seen)]
      constructor
      · rintro (rfl | ⟨hx, hnx⟩)
        · exact ⟨Or.inl rfl, hy⟩
        · refine ⟨Or.inr hx, fun habs => hnx (List.mem_cons_of_mem _ habs)⟩
      · rintro ⟨rfl | h2, hns⟩
        · exact Or.inl rfl
        · by_cases hxy : x = y
          · exact Or.inl hxy
          · refine Or.inr ⟨h2, ?_⟩
            intro habs
            rcases List.mem_cons.mp habs with h3 | h3
            · exact hxy h3
            · exact hns h3

/-- C9: with no CLI name filters every catalog entry of every module is
active; with a non-empty filter list an entry is active exactly when at
least one of its fully-qualified function names starts with at least one
supplied filter string. -/
theorem c9_prefix_filtering (mods : List TaintSourceDefinition)
    (pfxs : List String) (s : TaintSource) :
    (pfxs = [] → actual_used_taint_sources mods pfxs =
      (mods.map (fun m => m.sources)).flatten) ∧
    (pfxs ≠ [] → (s ∈ actual_used_taint_sources mods pfxs ↔
      s ∈ (mods.map (fun m => m.sources)).flatten ∧
        ∃ p ∈ pfxs, ∃ f ∈ s.functions, strStartsWith f p = true)) := by
  constructor
  · intro h
    subst h
    simp [actual_used_taint_sources]
  · intro h
    unfold actual_used_taint_sources
    rw [if_neg (by simp [List.isEmpty_iff, h])]
    constructor
    · intro hx
      rw [List.mem_flatten] at hx
      obtain ⟨l, hl, hxl⟩ := hx
      rw [List.mem_map] at hl
      obtain ⟨p, hp, rfl⟩ := hl
      rw [mem_uniqueFirstAux] at hxl
      obtain ⟨hmemf, -⟩ := hxl
      rw [List.mem_filter] at hmemf
      refine ⟨hmemf.1, p, hp, ?_⟩
      have h2 := hmemf.2
      rw [List.any_eq_true] at h2
      obtain ⟨f, hf, hsw⟩ := h2
      exact ⟨f, hf, hsw⟩
    · rintro ⟨hmem, p, hp, f, hf, hsw⟩
      rw [List.mem_flatten]
      refine ⟨uniqueFirstAux [] (((mods.map (fun m => m.sources)).flatten).filter
        (fun s2 => s2.functions.any (fun f2 => strStartsWith f2 p))), ?_, ?_⟩
      · rw [List.mem_map]
        exact ⟨p, hp, rfl⟩
      · rw [mem_uniqueFirstAux]
        refine ⟨?_, by simp⟩
        rw [List.mem_filter]
        refine ⟨hmem, ?_⟩
        rw [List.any_eq_true]
        exact ⟨f, hf, hsw⟩

/-- C9 witness: filtering the sample module by the name filter `std::env`
keeps exactly the entry whose function starts with it. -/
theorem c9_witness :
    (⟨["std::env::var"], "environment variable"⟩ : TaintSource) ∈
      actual_used_taint_sources [sampleModule] ["std::env"] :=
  ((c9_prefix_filtering [sampleModule] ["std::env"]
      ⟨["std::env::var"], "environment variable"⟩).2 (by decide)).mpr (by decide)

